import Mathlib

/-!
Shallow embedding of the FindUrVoicesPJSK client (`src/app/_client.py`) and
proofs about its selection, caching, retry, download-orchestration and
manifest-writing logic.

Conventions of the embedding:
* Python `int` values that can be negative or are compared with `<= 0`
  (retry counters excepted) are modelled as `Int`; loop indices that only
  start at a non-negative literal and are incremented are `Nat`.
* Python strings that are only passed around are `String`; strings that the
  code edits with `str.replace` are `List Char`.
* The stateful loops of the client become structural recursions carrying the
  mutated variables explicitly; `while retries < self._max_retries` becomes a
  recursion on the fuel `max_retries - retries`.
* `httpx.Response` objects do not implement `__bool__`, so `if not response:`
  in the source is true only when `_get` returned `None`; the embedding keeps
  the three observable outcomes of `Client._get` apart: a received response,
  the raised `httpx.ConnectError`, and the `return None` fall-through that is
  reachable only when `max_retries <= 0`.
-/

namespace FindUrVoices

/-- A JSON value, the payload type of the reference datasets.  `json.dump`
followed by `json.load` is the identity on such values, so the cache store is
modelled at the value level. -/
inductive Json where
  | null : Json
  | bool (b : Bool) : Json
  | num (n : Int) : Json
  | str (s : String) : Json
  | arr (elems : List Json) : Json
  | obj (fields : List (String × Json)) : Json

/-- An HTTP response as `Client` observes it: a status code, the raw body
bytes (`response.content`) and the parsed body (`response.json()`). -/
structure Response where
  status : Nat
  body : List Nat
  jsonBody : Json

/-- What one call of `Client._get` did: how many `self._client.get` attempts
ran, how many `time.sleep(self._wait_time)` pauses separated them, and how
the call ended. -/
inductive GetOutcome where
  | ok (r : Response) : GetOutcome
  | connectError : GetOutcome
  | returnedNone : GetOutcome

structure GetResult where
  attempts : Nat
  sleeps : Nat
  outcome : GetOutcome

/-- The `while retries < self._max_retries` loop of `Client._get`
(src/app/_client.py:65-78).  `transport i` is what the `i`-th
`self._client.get` call does: `some r` delivers the response `r` (any status
code), `none` raises a transport exception.  The fuel is
`max_retries - retries`; `attempt` is the current value of `retries`.
On an exception the code sleeps and retries while `retries < max_retries`
still holds, and raises `httpx.ConnectError` on the last failure; if the
loop never runs (`max_retries <= 0`) the function falls through to
`return None`. -/
def getLoop (transport : Nat → Option Response) : Nat → Nat → GetResult
  | 0, _ => ⟨0, 0, GetOutcome.returnedNone⟩
  | fuel + 1, attempt =>
    match transport attempt with
    | some r => ⟨1, 0, GetOutcome.ok r⟩
    | none =>
      match fuel with
      | 0 => ⟨1, 0, GetOutcome.connectError⟩
      | f + 1 =>
        let rest := getLoop transport (f + 1) (attempt + 1)
        ⟨rest.attempts + 1, rest.sleeps + 1, rest.outcome⟩

/-- Model of `Client._get(url)` with `self._max_retries = maxRetries`. -/
def getModel (transport : Nat → Option Response) (maxRetries : Nat) : GetResult :=
  getLoop transport maxRetries 0

/-- The value `30 * 24 * 60 * 60` of `self._cache_ttl_seconds`
(src/app/_client.py:43). -/
def cacheTtlSeconds : Nat := 30 * 24 * 60 * 60

/-- Model of `Client._load_cache` (src/app/_client.py:83-94) applied to one cache
file.  `file` is the on-disk state for this key: `none` when the file does
not exist, otherwise payload and modification time.  Absent file, or
`time.time() - getmtime > ttl`, yields `None`; otherwise the parsed
payload. -/
def loadCacheFile (file : Option (Json × Nat)) (now : Nat) : Option Json :=
  match file with
  | none => none
  | some (payload, mtime) =>
    if now - mtime > cacheTtlSeconds then none else some payload

/-- The cache directory as a map from dataset key to on-disk file state. -/
def CacheDir : Type := String → Option (Json × Nat)

/-- Model of `Client._save_cache(key, data)` (src/app/_client.py:96-103): writes the
whole payload to the per-key file, stamping the current time. -/
def saveCache (dir : CacheDir) (key : String) (payload : Json) (now : Nat) : CacheDir :=
  fun k => if k = key then some (payload, now) else dir k

/-- Model of `Client._load_cache(key)` against a cache directory. -/
def loadCache (dir : CacheDir) (key : String) (now : Nat) : Option Json :=
  loadCacheFile (dir key) now

/-- How the `fetch` closure of `Client._download_data`
(src/app/_client.py:116-130) ends for one dataset: with a payload, or with
the `httpx.ConnectError` of `_get` propagating out of it. -/
inductive DataFetchResult where
  | ok (d : Json) : DataFetchResult
  | raised : DataFetchResult

/-- The `fetch` closure of `Client._download_data` (src/app/_client.py:116-130)
for one dataset key.  `file` is the cache file state for that key.  A cache
hit is returned directly.  On a miss the code calls `self._get(url)`; an
exhausted retry budget propagates; `if not response:` (true only for a `None`
return) falls back to `cache_hit if cache_hit is not None else {}` — where
`cache_hit` is the very variable that was just found to be `None`; a received
response is parsed and cached. -/
def fetchDataset (file : Option (Json × Nat)) (now : Nat)
    (transport : Nat → Option Response) (maxRetries : Nat) : DataFetchResult :=
  let cacheHit := loadCacheFile file now
  match cacheHit with
  | some hit => DataFetchResult.ok hit
  | none =>
    match (getModel transport maxRetries).outcome with
    | GetOutcome.connectError => DataFetchResult.raised
    | GetOutcome.returnedNone =>
      match cacheHit with
      | some v => DataFetchResult.ok v
      | none => DataFetchResult.ok (Json.obj [])
    | GetOutcome.ok r => DataFetchResult.ok r.jsonBody

/-- Fueled version of Python `str.replace(pat, rep)` on character lists:
scan left to right, replace every non-overlapping occurrence of `pat`.
The fuel is an upper bound on the number of scanned characters; each step
consumes the matched occurrence (`pat.length` characters, of which
`pat.length - 1` come out of `rest`) or one character.  The client only
calls `replace` with non-empty patterns. -/
def pyReplaceFuel (pat rep : List Char) : Nat → List Char → List Char
  | _, [] => []
  | 0, s => s
  | fuel + 1, c :: rest =>
    if pat.isPrefixOf (c :: rest) then
      rep ++ pyReplaceFuel pat rep fuel (List.drop (pat.length - 1) rest)
    else
      c :: pyReplaceFuel pat rep fuel rest

/-- Python `s.replace(pat, rep)` for non-empty `pat`. -/
def pyReplace (pat rep s : List Char) : List Char :=
  pyReplaceFuel pat rep s.length s

/-- The test `noMatchIn pat tail s` is true when no occurrence of `pat` in `s ++ tail`
starts inside `s`; under that condition the replacement scan walks straight
through `s`. -/
def noMatchIn (pat tail : List Char) : List Char → Bool
  | [] => true
  | c :: rest => !(pat.isPrefixOf ((c :: rest) ++ tail)) && noMatchIn pat tail rest

/-- Whether `pat` occurs as a contiguous substring of `s` (Python's `pat in s`
for strings). -/
def containsSub (pat : List Char) : List Char → Bool
  | [] => pat.isEmpty
  | c :: rest => pat.isPrefixOf (c :: rest) || containsSub pat rest

/-- The template `self._default_manifest_format`, the raw string `{path}|{text}`
(src/app/_client.py:38). -/
def defaultManifestFormat : List Char := ("\x7bpath\x7d|\x7btext\x7d").data

/-- Model of `Client._serialize_manifest_format(path=.., text=..)`
(src/app/_client.py:180-184): starting from the default format, replace
`"{path}"` by the path and then `"{text}"` by the text, in keyword order. -/
def serializeManifestFormat (path text : List Char) : List Char :=
  pyReplace ("\x7btext\x7d").data text
    (pyReplace ("\x7bpath\x7d").data path defaultManifestFormat)

/-- The state of the manifest writer: whether `self._manifest_file_instance`
has been opened, and the lines written to it so far. -/
structure ManifestState where
  opened : Bool
  lines : List (List Char)

/-- Model of `Client._write_manifest_line(save_path, file_path, text)`
(src/app/_client.py:186-204): a no-op when `self._save_texts` is false;
otherwise open the manifest file on first use and append exactly one
serialized line followed by a newline. -/
def writeManifestLine (saveTexts : Bool) (st : ManifestState)
    (filePath text : List Char) : ManifestState :=
  if saveTexts = false then st
  else
    let st1 := if st.opened = false then ManifestState.mk true st.lines else st
    ManifestState.mk st1.opened
      (st1.lines ++ [serializeManifestFormat filePath text ++ ['\n']])

/-- The result of `Client._fetch_and_save` (src/app/_client.py:209-230).
The whole body runs inside `try: ... except Exception: return False`, so no
exception — the `httpx.ConnectError` of an exhausted retry budget included —
ever escapes; `raised` exists only so that the (refuted) propagation claim is
statable. -/
inductive FSResult where
  | ok (success : Bool) : FSResult
  | raised : FSResult

/-- Model of `Client._fetch_and_save(url, file_path)` (src/app/_client.py:209-230):
`_get` the url; a `None` return or an empty `response.content` is a non-fatal
failure (`return False`); any exception — including the fatal
`httpx.ConnectError` from `_get` — is caught by `except Exception` and is
also a non-fatal failure; otherwise the bytes are written and the task
succeeds. -/
def fetchAndSave (transport : Nat → Option Response) (maxRetries : Nat) : FSResult :=
  match (getModel transport maxRetries).outcome with
  | GetOutcome.connectError => FSResult.ok false
  | GetOutcome.returnedNone => FSResult.ok false
  | GetOutcome.ok r => if r.body.isEmpty then FSResult.ok false else FSResult.ok true

/-- Model of `Client._download_voice_with_manifest(url, file_path, cleaned_body,
save_path)` (src/app/_client.py:473-477): run `_fetch_and_save` and, only on
success, hand the `(path, text)` pair to the manifest writer. -/
def downloadVoiceWithManifest (transport : Nat → Option Response) (maxRetries : Nat)
    (saveTexts : Bool) (st : ManifestState) (filePath text : List Char) :
    FSResult × ManifestState :=
  match fetchAndSave transport maxRetries with
  | FSResult.ok true => (FSResult.ok true, writeManifestLine saveTexts st filePath text)
  | other => (other, st)

/-- The `for future in as_completed(futures)` loop of `_run_download`
(src/app/_client.py:341-345): consume task results in completion order,
return `-1` (here `false`) on the first failed task without collecting the
remaining results, count how many results were collected. -/
def asCompletedCollect : List Bool → Nat × Bool
  | [] => (0, true)
  | b :: rest =>
    if b then
      let r := asCompletedCollect rest
      (r.1 + 1, r.2)
    else (1, false)

/-! ### Reference data records and indexes -/

/-- One record of `musics.json`: the fields the client reads. -/
structure Music where
  id : Int
  title : String

/-- One entry of the `characters` list of a `musicVocals.json` record. -/
structure VocalCharacter where
  characterType : String
  characterId : Int

/-- One record of `musicVocals.json`: the fields the client reads. -/
structure MusicVocal where
  musicId : Int
  characters : List VocalCharacter
  assetbundleName : String

/-- One record of `character2ds.json`: the fields the client reads. -/
structure Character2dRec where
  id : Int
  characterId : Int

/-- One record of `cards.json`: the fields the client reads. -/
structure CardRec where
  characterId : Int
  assetbundleName : String

/-- One record of `cardEpisodes.json`: the fields the client reads. -/
structure EpisodeRec where
  assetbundleName : String
  scenarioId : String

/-- The index `self._musics_by_id` (src/app/_client.py:142): a dict comprehension, so a
later record with the same id overwrites an earlier one. -/
def musicsById (musics : List Music) : Int → Option Music :=
  musics.foldl (fun acc m => fun k => if k = m.id then some m else acc k) (fun _ => none)

/-- The lookup `self._character_2d_ids_by_character[cid]` with default `[]`
(src/app/_client.py:143-145, lookup at 378/404): the `id`s of the
`character2ds.json` records with this `characterId`, in dataset order. -/
def character2dIdsByCharacter (c2ds : List Character2dRec) (cid : Int) : List Int :=
  (c2ds.filter (fun c => c.characterId = cid)).map (fun c => c.id)

/-- The lookup `self._cards_by_character[cid]` with default `[]`
(src/app/_client.py:147-149, lookup at 401): the character's cards in dataset
order. -/
def cardsByCharacter (cards : List CardRec) (cid : Int) : List CardRec :=
  cards.filter (fun c => c.characterId = cid)

/-- The lookup `self._scenario_ids_by_assetbundle[name]` with default `[]`
(src/app/_client.py:150-152, lookup at 423): the episode scenario ids for
this asset bundle, in dataset order. -/
def scenarioIdsByAssetbundle (episodes : List EpisodeRec) (name : String) : List String :=
  (episodes.filter (fun e => e.assetbundleName = name)).map (fun e => e.scenarioId)

/-! ### Solo songs (`Client.download_solo_songs`, src/app/_client.py:232-279) -/

/-- The `singers` list: the `characterId`s of the vocal's `characters` entries whose
`characterType` is `game_character` (src/app/_client.py:238). -/
def soloSingers (mv : MusicVocal) : List Int :=
  (mv.characters.filter (fun c => c.characterType = ("game_character"))).map
    (fun c => c.characterId)

/-- Whether `download_solo_songs` keeps the vocal record for `cid`: exactly
one `game_character` singer, that singer is `cid`, and the `musicId` joins to
a known music record (the three `continue` guards at
src/app/_client.py:240-248). -/
def soloSelect (musics : List Music) (cid : Int) (mv : MusicVocal) : Bool :=
  decide ((soloSingers mv).length = 1) && decide (cid ∈ soloSingers mv) &&
    (musicsById musics mv.musicId).isSome

/-- One solo-song download task: the asset bundle the url is built from and
the 1-based counter that names the file `S{index:03d}.wav`. -/
structure SoloTask where
  assetbundleName : String
  idx : Nat

/-- The task-building loop of `download_solo_songs`
(src/app/_client.py:236-263), carrying the `index` counter. -/
def soloLoop (musics : List Music) (cid : Int) : List MusicVocal → Nat → List SoloTask
  | [], _ => []
  | mv :: rest, index =>
    if (soloSingers mv).length = 1 then
      if cid ∈ soloSingers mv then
        match musicsById musics mv.musicId with
        | some _ => SoloTask.mk mv.assetbundleName index :: soloLoop musics cid rest (index + 1)
        | none => soloLoop musics cid rest index
      else soloLoop musics cid rest index
    else soloLoop musics cid rest index

/-- The task list of `Client.download_solo_songs(character_id)`. -/
def soloSongsTasks (musics : List Music) (musicVocals : List MusicVocal) (cid : Int) :
    List SoloTask :=
  soloLoop musics cid musicVocals 1

/-- Numbering: `enumSoloTasks i mvs` numbers the selected vocal records sequentially
from `i`. -/
def enumSoloTasks : Nat → List MusicVocal → List SoloTask
  | _, [] => []
  | i, mv :: rest => SoloTask.mk mv.assetbundleName i :: enumSoloTasks (i + 1) rest

/-! ### Scenario asset documents and the talk-entry filter
(`Client._parse_and_download_asset`, src/app/_client.py:281-364) -/

/-- One entry of a talk entry's `TalkCharacters` list. -/
structure TalkCharacter where
  character2dId : Int

/-- One entry of a talk entry's `Voices` list. -/
structure Voice where
  character2dId : Int
  voiceId : String

/-- One entry of an asset document's `TalkData` list. -/
structure TalkEntry where
  talkCharacters : List TalkCharacter
  voices : List Voice
  body : List Char

/-- A scenario asset document (the parsed `.asset` JSON): its `TalkData`
list. -/
structure Asset where
  talkData : List TalkEntry

/-- One voice download task as `_parse_and_download_asset` builds it.  The
source tuple is `(url, file_path, cleaned_body)`; `url` is determined by the
base url, `scenarioId` and `voiceId`, and `file_path` by the prefix, the
zero-padding width and `idx`, so those fields are kept instead. -/
structure Task where
  scenarioId : String
  voiceId : String
  idx : Nat
  body : List Char
deriving DecidableEq

/-- Python `str(index).zfill(width)` for the non-negative `index` in use. -/
def zfill (width : Nat) (s : String) : String :=
  if width ≤ s.length then s
  else String.mk (List.replicate (width - s.length) '0') ++ s

/-- The `file_name` of a task (src/app/_client.py:308). -/
def taskFileName (pfx : String) (width : Nat) (idx : Nat) : String :=
  pfx ++ zfill width (toString idx) ++ (".wav")

/-- The `url` of a task (src/app/_client.py:307). -/
def taskUrl (baseUrl scenarioId voiceId : String) : String :=
  baseUrl ++ ("/") ++ scenarioId ++ ("/") ++ voiceId ++ (".wav")

/-- The check `if count and len(tasks) >= count` (src/app/_client.py:317-320): Python
truthiness makes `count = None` and `count = 0` skip the cap check. -/
def capHit (count : Option Int) (len : Nat) : Bool :=
  match count with
  | none => false
  | some c => decide (c ≠ 0) && decide ((len : Int) ≥ c)

/-- Python `tasks[:count]` for an `int` count (src/app/_client.py:326):
a non-negative count takes a prefix, a negative count drops `-count`
elements from the end. -/
def pySliceTo (l : List Task) (c : Int) : List Task :=
  if 0 ≤ c then l.take c.toNat else l.take (l.length - c.natAbs)

/-- The inner `for voice in data['Voices']` loop
(src/app/_client.py:303-318): keep voices whose `Character2dId` is among the
character's 2d ids, append one task per kept voice (with the newline-stripped
body), increment `index`, and break once the count cap is hit. -/
def voicesLoop (ids : List Int) (scenarioId : String) (body : List Char) :
    List Voice → List Task → Nat → Option Int → List Task × Nat
  | [], tasks, index, _ => (tasks, index)
  | v :: rest, tasks, index, count =>
    if v.character2dId ∈ ids then
      let tasks' := tasks ++ [Task.mk scenarioId v.voiceId index (pyReplace ['\n'] [] body)]
      if capHit count tasks'.length then (tasks', index + 1)
      else voicesLoop ids scenarioId body rest tasks' (index + 1) count
    else voicesLoop ids scenarioId body rest tasks index count

/-- The outer `for data in talk_data` loop (src/app/_client.py:296-320):
skip entries whose speaker list does not have exactly one element or whose
speakers are not all among the character's 2d ids; run the voices loop on
surviving entries; break once the count cap is hit. -/
def talkLoop (ids : List Int) (scenarioId : String) :
    List TalkEntry → List Task → Nat → Option Int → List Task × Nat
  | [], tasks, index, _ => (tasks, index)
  | e :: rest, tasks, index, count =>
    let speakers := e.talkCharacters.map (fun t => t.character2dId)
    if speakers.length = 1 then
      if (speakers.filter (fun x => !(decide (x ∈ ids)))).length = 0 then
        let r := voicesLoop ids scenarioId e.body e.voices tasks index count
        if capHit count r.1.length then r
        else talkLoop ids scenarioId rest r.1 r.2 count
      else talkLoop ids scenarioId rest tasks index count
    else talkLoop ids scenarioId rest tasks index count

/-- The result of `_parse_and_download_asset`: the Python function returns
`-1` when a download in the batch failed (asset not found) and the final
`index` otherwise; `notFound` stands for the `-1` sentinel. -/
inductive ParseResult where
  | notFound : ParseResult
  | ok (newIndex : Nat) : ParseResult

/-- Model of `Client._parse_and_download_asset` (src/app/_client.py:281-362), returning
the batch of tasks submitted to the download pool together with the Python
return value.  `dOk t` is whether `_download_voice_with_manifest` succeeds
for task `t`; the `as_completed` iteration consumes results in completion
order — a permutation of the submission order, which leaves the `-1`-or-index
outcome unchanged, so the submission order is used here. -/
def parseAndDownloadAsset (ids : List Int) (asset : Asset) (scenarioId : String)
    (index : Nat) (count : Option Int) (dOk : Task → Bool) : List Task × ParseResult :=
  let r := talkLoop ids scenarioId asset.talkData [] index count
  if r.1.isEmpty then ([], ParseResult.ok r.2)
  else
    let submitted :=
      match count with
      | some c => if c ≠ 0 then pySliceTo r.1 c else r.1
      | none => r.1
    if (asCompletedCollect (submitted.map dOk)).2 then (submitted, ParseResult.ok r.2)
    else (submitted, ParseResult.notFound)

/-! ### Card voices (`Client.download_character_cards_voices`,
src/app/_client.py:397-459) -/

/-- How one invocation of `download_character_cards_voices` ended: an
asset-not-found stop (`-1` from a batch), the cap-reached success return, or
falling off the end of the card loop. -/
inductive CardsOutcome where
  | notFound : CardsOutcome
  | capDone : CardsOutcome
  | exhausted : CardsOutcome

/-- The batches submitted to the download pool (one entry per processed
scenario) and the way the invocation ended. -/
structure CardsRun where
  batches : List (List Task)
  outcome : CardsOutcome

/-- How the `for scenario_id in scenario_ids` loop of one card ends: an
early return, or falling through to the next card with the updated
`remaining_target` and `index`. -/
inductive ScenStep where
  | stopNotFound (batches : List (List Task)) : ScenStep
  | stopCap (batches : List (List Task)) : ScenStep
  | next (remaining : Int) (index : Nat) (batches : List (List Task)) : ScenStep

/-- The `for scenario_id in scenario_ids` loop
(src/app/_client.py:425-459): break when `remaining_target <= 0`; fetch the
scenario asset; parse and download with `count = remaining_target`; return on
`-1`; subtract the processed task count from `remaining_target` and return
successfully once it reaches zero. -/
def scenLoop (ids : List Int) (assetOf : String → String → Asset) (dOk : Task → Bool)
    (bundle : String) :
    List String → Int → Nat → List (List Task) → ScenStep
  | [], remaining, index, acc => ScenStep.next remaining index acc
  | sid :: rest, remaining, index, acc =>
    if remaining ≤ 0 then ScenStep.next remaining index acc
    else
      let asset := assetOf bundle sid
      let pr := parseAndDownloadAsset ids asset sid index (some remaining) dOk
      match pr.2 with
      | ParseResult.notFound => ScenStep.stopNotFound (acc ++ [pr.1])
      | ParseResult.ok newIndex =>
        let remaining' := remaining - ((newIndex : Int) - (index : Int))
        if remaining' ≤ 0 then ScenStep.stopCap (acc ++ [pr.1])
        else scenLoop ids assetOf dOk bundle rest remaining' newIndex (acc ++ [pr.1])

/-- The `for card in character_cards` loop (src/app/_client.py:418-459):
break when `remaining_target <= 0`, otherwise resolve the card's scenario ids
and run the scenario loop. -/
def cardsLoop (ids : List Int) (assetOf : String → String → Asset) (dOk : Task → Bool)
    (episodes : List EpisodeRec) :
    List CardRec → Int → Nat → List (List Task) → CardsRun
  | [], _, _, acc => CardsRun.mk acc CardsOutcome.exhausted
  | card :: rest, remaining, index, acc =>
    if remaining ≤ 0 then CardsRun.mk acc CardsOutcome.exhausted
    else
      match scenLoop ids assetOf dOk card.assetbundleName
          (scenarioIdsByAssetbundle episodes card.assetbundleName) remaining index acc with
      | ScenStep.stopNotFound acc' => CardsRun.mk acc' CardsOutcome.notFound
      | ScenStep.stopCap acc' => CardsRun.mk acc' CardsOutcome.capDone
      | ScenStep.next remaining' index' acc' =>
        cardsLoop ids assetOf dOk episodes rest remaining' index' acc'

/-- Model of `Client.download_character_cards_voices(character_id, card_voices_count)`
(src/app/_client.py:397-459): the 2d-id set and card list come from the
indexes; `assetOf bundle sid` is the parsed scenario asset document served
for that bundle and scenario id; `index` starts at 1 and
`remaining_target` at `card_voices_count`. -/
def downloadCharacterCardsVoices (c2ds : List Character2dRec) (cards : List CardRec)
    (episodes : List EpisodeRec) (assetOf : String → String → Asset) (dOk : Task → Bool)
    (cid : Int) (cardVoicesCount : Int) : CardsRun :=
  cardsLoop (character2dIdsByCharacter c2ds cid) assetOf dOk episodes
    (cardsByCharacter cards cid) cardVoicesCount 1 []

/-! ### Specification-side views used to state the claims -/

/-- Whether a talk entry survives the two speaker guards
(src/app/_client.py:297-301). -/
def entryPasses (ids : List Int) (e : TalkEntry) : Bool :=
  let speakers := e.talkCharacters.map (fun t => t.character2dId)
  decide (speakers.length = 1) &&
    decide ((speakers.filter (fun x => !(decide (x ∈ ids)))).length = 0)

/-- An eligible voice reference, before numbering: its scenario, its voice id
and its newline-stripped body text. -/
structure VoiceRef where
  scenarioId : String
  voiceId : String
  body : List Char
deriving DecidableEq

/-- The eligible voice references of one voices list with its entry body, in
`Voices` order: those whose `Character2dId` is among the character's 2d
ids. -/
def eligVoices (ids : List Int) (scenarioId : String) (body : List Char)
    (voices : List Voice) : List VoiceRef :=
  (voices.filter (fun v => decide (v.character2dId ∈ ids))).map
    (fun v => VoiceRef.mk scenarioId v.voiceId (pyReplace ['\n'] [] body))

/-- The eligible voice references of one surviving talk entry, in `Voices`
order. -/
def eligibleVoicesOfEntry (ids : List Int) (scenarioId : String) (e : TalkEntry) :
    List VoiceRef :=
  eligVoices ids scenarioId e.body e.voices

/-- The eligible voice references of a talk-entry list: entries in order,
surviving entries only, voices in `Voices` order. -/
def eligEntries (ids : List Int) (scenarioId : String) (entries : List TalkEntry) :
    List VoiceRef :=
  ((entries.filter (entryPasses ids)).map (eligibleVoicesOfEntry ids scenarioId)).flatten

/-- The eligible voice references of a whole asset document: talk entries in
`TalkData` order, surviving entries only, voices in `Voices` order. -/
def eligibleVoicesOfAsset (ids : List Int) (scenarioId : String) (asset : Asset) :
    List VoiceRef :=
  eligEntries ids scenarioId asset.talkData

/-- The eligible voice references of a run of scenarios of one card, in
scenario order. -/
def eligScenarios (ids : List Int) (assetOf : String → String → Asset)
    (bundle : String) (sids : List String) : List VoiceRef :=
  (sids.map (fun sid => eligibleVoicesOfAsset ids sid (assetOf bundle sid))).flatten

/-- The eligible voice references of a run of cards, in card order. -/
def eligCards (ids : List Int) (assetOf : String → String → Asset)
    (episodes : List EpisodeRec) (cardsL : List CardRec) : List VoiceRef :=
  (cardsL.map (fun card =>
    eligScenarios ids assetOf card.assetbundleName
      (scenarioIdsByAssetbundle episodes card.assetbundleName))).flatten

/-- All eligible voice references of a character's card voices, in
enumeration order: cards in dataset order, each card's scenarios in dataset
order, then talk entries, then voices. -/
def eligibleAcrossCards (c2ds : List Character2dRec) (cards : List CardRec)
    (episodes : List EpisodeRec) (assetOf : String → String → Asset) (cid : Int) :
    List VoiceRef :=
  eligCards (character2dIdsByCharacter c2ds cid) assetOf episodes
    (cardsByCharacter cards cid)

/-- Number a list of eligible voice references sequentially from `i`. -/
def enumTasks : Nat → List VoiceRef → List Task
  | _, [] => []
  | i, r :: rest => Task.mk r.scenarioId r.voiceId i r.body :: enumTasks (i + 1) rest

/-! ## Lemmas about the replacement scan -/

theorem pyReplaceFuel_nil (pat rep : List Char) (fuel : Nat) :
    pyReplaceFuel pat rep fuel [] = [] := by
  cases fuel <;> rfl

theorem pyReplace_nil (pat rep : List Char) : pyReplace pat rep [] = [] := rfl

theorem pyReplaceFuel_congr (pat rep : List Char) :
    ∀ f1 : Nat, ∀ s : List Char, ∀ f2 : Nat, s.length ≤ f1 → s.length ≤ f2 →
      pyReplaceFuel pat rep f1 s = pyReplaceFuel pat rep f2 s := by
  intro f1
  induction f1 with
  | zero =>
    intro s f2 h1 _
    have hs : s = [] := List.length_eq_zero.mp (Nat.le_zero.mp h1)
    subst hs
    simp [pyReplaceFuel_nil]
  | succ f ih =>
    intro s f2 h1 h2
    cases s with
    | nil => simp [pyReplaceFuel_nil]
    | cons c rest =>
      cases f2 with
      | zero => simp at h2
      | succ g =>
        simp only [pyReplaceFuel]
        by_cases hp : pat.isPrefixOf (c :: rest) = true
        · rw [if_pos hp, if_pos hp]
          have hlen : (List.drop (pat.length - 1) rest).length ≤ f := by
            have := List.length_drop (pat.length - 1) rest
            simp only [List.length_cons] at h1
            omega
          have hlen2 : (List.drop (pat.length - 1) rest).length ≤ g := by
            have := List.length_drop (pat.length - 1) rest
            simp only [List.length_cons] at h2
            omega
          rw [ih _ _ hlen hlen2]
        · rw [if_neg hp, if_neg hp]
          have hlen : rest.length ≤ f := by simp only [List.length_cons] at h1; omega
          have hlen2 : rest.length ≤ g := by simp only [List.length_cons] at h2; omega
          rw [ih _ _ hlen hlen2]

theorem pyReplaceFuel_append_noMatch (pat rep tail : List Char) :
    ∀ a : List Char, ∀ f : Nat, (a ++ tail).length ≤ f → noMatchIn pat tail a = true →
      pyReplaceFuel pat rep f (a ++ tail) = a ++ pyReplaceFuel pat rep tail.length tail := by
  intro a
  induction a with
  | nil =>
    intro f hf _
    simp only [List.nil_append] at hf ⊢
    exact pyReplaceFuel_congr pat rep f tail tail.length hf (Nat.le_refl _)
  | cons c a' ih =>
    intro f hf hnm
    simp only [noMatchIn, List.cons_append, Bool.and_eq_true, Bool.not_eq_true'] at hnm
    cases f with
    | zero => simp at hf
    | succ f' =>
      simp only [List.cons_append, pyReplaceFuel, List.append_eq]
      rw [if_neg (fun hp => Bool.false_ne_true (hnm.1 ▸ hp))]
      have hlen : (a' ++ tail).length ≤ f' := by
        simp only [List.cons_append, List.length_append, List.length_cons] at hf
        simp only [List.length_append]
        omega
      rw [ih f' hlen hnm.2]

theorem pyReplace_append_noMatch (pat rep tail : List Char) (a : List Char)
    (h : noMatchIn pat tail a = true) :
    pyReplace pat rep (a ++ tail) = a ++ pyReplace pat rep tail :=
  pyReplaceFuel_append_noMatch pat rep tail a (a ++ tail).length (Nat.le_refl _) h

theorem pyReplaceFuel_head_match (pat rep : List Char) (hne : pat ≠ []) :
    ∀ tail : List Char, ∀ f : Nat, (pat ++ tail).length ≤ f →
      pyReplaceFuel pat rep f (pat ++ tail) =
        rep ++ pyReplaceFuel pat rep tail.length tail := by
  intro tail f hf
  cases pat with
  | nil => exact absurd rfl hne
  | cons p ps =>
    cases f with
    | zero => simp at hf
    | succ f' =>
      simp only [List.cons_append, pyReplaceFuel, List.append_eq]
      rw [if_pos ( List.isPrefixOf_iff_prefix.mpr
        (by rw [← List.cons_append]; exact List.prefix_append _ _))]
      have hdrop : List.drop ((p :: ps).length - 1) (ps ++ tail) = tail := by
        simp only [List.length_cons, Nat.add_sub_cancel]
        exact List.drop_left' rfl
      rw [hdrop]
      have hlen : tail.length ≤ f' := by
        simp only [List.cons_append, List.length_append, List.length_cons] at hf
        omega
      rw [pyReplaceFuel_congr (p :: ps) rep f' tail tail.length hlen (Nat.le_refl _)]

theorem pyReplace_head_match (pat rep tail : List Char) (hne : pat ≠ []) :
    pyReplace pat rep (pat ++ tail) = rep ++ pyReplace pat rep tail :=
  pyReplaceFuel_head_match pat rep hne tail (pat ++ tail).length (Nat.le_refl _)

theorem pyReplace_self (pat rep : List Char) (hne : pat ≠ []) :
    pyReplace pat rep pat = rep := by
  have h := pyReplace_head_match pat rep [] hne
  simp only [List.append_nil, pyReplace_nil] at h
  simpa using h

theorem pyReplace_no_occur (pat rep s : List Char) (h : noMatchIn pat [] s = true) :
    pyReplace pat rep s = s := by
  have h2 := pyReplace_append_noMatch pat rep [] s h
  simpa [pyReplace_nil] using h2

theorem noMatchIn_of_not_containsSub (pat b : List Char)
    (hcross : ∀ k : Nat, 1 ≤ k → k < pat.length → ¬ (pat.drop k <+: b)) :
    ∀ x : List Char, containsSub pat x = false → noMatchIn pat b x = true := by
  intro x
  induction x with
  | nil => intro _; rfl
  | cons c rest ih =>
    intro h
    simp only [containsSub, Bool.or_eq_false_iff] at h
    simp only [noMatchIn, List.cons_append, Bool.and_eq_true, Bool.not_eq_true']
    refine ⟨?_, ih h.2⟩
    by_contra hp
    rw [Bool.not_eq_false] at hp
    have hpre : pat <+: (c :: rest) ++ b := by
      rw [List.cons_append]
      exact List.isPrefixOf_iff_prefix.mp hp
    by_cases hl : pat.length ≤ (c :: rest).length
    · have hp2 : pat <+: (c :: rest) :=
        List.prefix_of_prefix_length_le hpre ( List.prefix_append _ _) hl
      have hp3 : pat.isPrefixOf (c :: rest) = true := List.isPrefixOf_iff_prefix.mpr hp2
      rw [h.1] at hp3
      exact Bool.false_ne_true hp3
    · push_neg at hl
      have hx : (c :: rest) <+: pat :=
        List.prefix_of_prefix_length_le ( List.prefix_append _ _) hpre (Nat.le_of_lt hl)
      have hsplit : (c :: rest) ++ pat.drop (c :: rest).length = pat := by
        obtain ⟨t, ht⟩ := hx
        rw [← ht, List.drop_left]
      rw [← hsplit] at hpre
      have hdropb : pat.drop (c :: rest).length <+: b :=
        ( List.prefix_append_right_inj _).mp hpre
      exact hcross (c :: rest).length (by simp) hl hdropb

theorem containsSub_eq_true_iff (pat : List Char) :
    ∀ x : List Char, containsSub pat x = true ↔ pat <:+: x := by
  intro x
  induction x with
  | nil => simp [containsSub, List.isEmpty_iff]
  | cons c rest ih =>
    simp [containsSub, ih, List.infix_cons_iff, List.isPrefixOf_iff_prefix]

/-! ## Lemmas about the retry loop of `Client._get` -/

theorem getLoop_all_fail (transport : Nat → Option Response)
    (h : ∀ i, transport i = none) :
    ∀ f : Nat, ∀ a : Nat, 1 ≤ f →
      getLoop transport f a = ⟨f, f - 1, GetOutcome.connectError⟩ := by
  intro f
  induction f with
  | zero => intro a h1; omega
  | succ g ih =>
    intro a _
    cases g with
    | zero => simp [getLoop, h a]
    | succ g' =>
      simp [getLoop, h a, ih (a + 1) (by omega)]

theorem getLoop_succeeds (transport : Nat → Option Response) :
    ∀ k : Nat, ∀ f a : Nat, ∀ r : Response, k < f →
      (∀ i, i < k → transport (a + i) = none) → transport (a + k) = some r →
      getLoop transport f a = ⟨k + 1, k, GetOutcome.ok r⟩ := by
  intro k
  induction k with
  | zero =>
    intro f a r hf _ hk
    cases f with
    | zero => omega
    | succ f' =>
      simp only [Nat.add_zero] at hk
      cases f' with
      | zero => simp [getLoop, hk]
      | succ g => simp [getLoop, hk]
  | succ k' ih =>
    intro f a r hf hfail hk
    cases f with
    | zero => omega
    | succ f' =>
      have h0 : transport a = none := by
        have := hfail 0 (by omega)
        simpa using this
      cases f' with
      | zero => omega
      | succ g =>
        have hrest : getLoop transport (g + 1) (a + 1) = ⟨k' + 1, k', GetOutcome.ok r⟩ := by
          apply ih (g + 1) (a + 1) r (by omega)
          · intro i hi
            have := hfail (i + 1) (by omega)
            rw [← this]
            congr 1
            omega
          · rw [← hk]
            congr 1
            omega
        simp [getLoop, h0, hrest]

/-! ## Lemmas about solo-song selection -/

theorem soloLoop_eq_enum (musics : List Music) (cid : Int) :
    ∀ mvs : List MusicVocal, ∀ index : Nat,
      soloLoop musics cid mvs index =
        enumSoloTasks index (mvs.filter (soloSelect musics cid)) := by
  intro mvs
  induction mvs with
  | nil => intro index; rfl
  | cons mv rest ih =>
    intro index
    by_cases h1 : (soloSingers mv).length = 1
    · by_cases h2 : cid ∈ soloSingers mv
      · cases hm : musicsById musics mv.musicId with
        | none =>
          have hsel : soloSelect musics cid mv = false := by
            simp [soloSelect, hm]
          simp [soloLoop, h1, h2, hm, List.filter_cons, hsel, ih]
        | some m =>
          have hsel : soloSelect musics cid mv = true := by
            simp [soloSelect, h1, h2, hm]
          simp [soloLoop, h1, h2, hm, List.filter_cons, hsel, ih, enumSoloTasks]
      · have hsel : soloSelect musics cid mv = false := by
          simp [soloSelect, h2]
        simp [soloLoop, h1, h2, List.filter_cons, hsel, ih]
    · have hsel : soloSelect musics cid mv = false := by
        simp [soloSelect, h1]
      simp [soloLoop, h1, List.filter_cons, hsel, ih]

theorem soloSelect_iff (musics : List Music) (cid : Int) (mv : MusicVocal) :
    soloSelect musics cid mv = true ↔
      (soloSingers mv = [cid] ∧ (musicsById musics mv.musicId).isSome = true) := by
  constructor
  · intro h
    simp only [soloSelect, Bool.and_eq_true, decide_eq_true_eq] at h
    refine ⟨?_, h.2⟩
    obtain ⟨a, ha⟩ := List.length_eq_one.mp h.1.1
    rw [ha]
    rw [ha] at h
    have := h.1.2
    simp only [List.mem_singleton] at this
    rw [this]
  · intro h
    simp [soloSelect, h.1, h.2]

/-! ## Helper lemmas about task enumeration -/

theorem enumTasks_append (a : List VoiceRef) :
    ∀ b : List VoiceRef, ∀ i : Nat,
      enumTasks i (a ++ b) = enumTasks i a ++ enumTasks (i + a.length) b := by
  induction a with
  | nil => intro b i; simp [enumTasks]
  | cons r a' ih =>
    intro b i
    simp only [List.cons_append, enumTasks, ih, List.length_cons, List.cons.injEq,
      List.append_eq, true_and]
    have harith : i + 1 + a'.length = i + (a'.length + 1) := by omega
    rw [harith]

theorem enumTasks_length (l : List VoiceRef) :
    ∀ i : Nat, (enumTasks i l).length = l.length := by
  induction l with
  | nil => intro i; rfl
  | cons r rest ih => intro i; simp [enumTasks, ih]

theorem enumTasks_map_idx (l : List VoiceRef) :
    ∀ i : Nat, (enumTasks i l).map Task.idx = List.range' i l.length := by
  induction l with
  | nil => intro i; rfl
  | cons r rest ih =>
    intro i
    simp [enumTasks, ih, List.range'_succ]

theorem enumTasks_mem (l : List VoiceRef) :
    ∀ i : Nat, ∀ t : Task, t ∈ enumTasks i l →
      ∃ r ∈ l, t.scenarioId = r.scenarioId ∧ t.voiceId = r.voiceId ∧ t.body = r.body := by
  induction l with
  | nil => intro i t ht; simp [enumTasks] at ht
  | cons r rest ih =>
    intro i t ht
    simp only [enumTasks, List.mem_cons] at ht
    cases ht with
    | inl h => exact ⟨r, List.mem_cons_self _ _, by rw [h]; exact ⟨rfl, rfl, rfl⟩⟩
    | inr h =>
      obtain ⟨r', hr', hprops⟩ := ih (i + 1) t h
      exact ⟨r', List.mem_cons_of_mem _ hr', hprops⟩

theorem capHit_some_iff (c : Int) (n : Nat) :
    capHit (some c) n = true ↔ (c ≠ 0 ∧ (n : Int) ≥ c) := by
  simp [capHit]

theorem all_map_id {α : Type} (f : α → Bool) :
    ∀ l : List α, (l.map f).all id = l.all f := by
  intro l
  induction l with
  | nil => rfl
  | cons x xs ih => simp [List.map_cons, List.all_cons, ih]

theorem asCompletedCollect_snd (l : List Bool) :
    (asCompletedCollect l).2 = l.all id := by
  induction l with
  | nil => rfl
  | cons b rest ih =>
    by_cases hb : b = true
    · subst hb; simp [asCompletedCollect, ih]
    · simp only [Bool.not_eq_true] at hb
      subst hb
      simp [asCompletedCollect]

theorem asCompletedCollect_stops (i : Nat) :
    ∀ oks : List Bool, oks[i]? = some false → (∀ j, j < i → oks[j]? = some true) →
      asCompletedCollect oks = (i + 1, false) := by
  induction i with
  | zero =>
    intro oks h0 _
    cases oks with
    | nil => simp at h0
    | cons b rest =>
      simp only [List.getElem?_cons_zero, Option.some.injEq] at h0
      subst h0
      simp [asCompletedCollect]
  | succ i' ih =>
    intro oks hi hprev
    cases oks with
    | nil => simp at hi
    | cons b rest =>
      have hb : b = true := by
        have := hprev 0 (by omega)
        simpa using this
      subst hb
      simp only [List.getElem?_cons_succ] at hi
      have hrest : asCompletedCollect rest = (i' + 1, false) := by
        apply ih rest hi
        intro j hj
        have := hprev (j + 1) (by omega)
        simpa using this
      simp [asCompletedCollect, hrest]

/-! ## Characterization of the talk-entry filter loops under a positive cap -/

theorem voicesLoop_spec (ids : List Int) (sid : String) (body : List Char) :
    ∀ voices : List Voice, ∀ tasks : List Task, ∀ index room : Nat, ∀ c : Int,
      1 ≤ room → c = ((tasks.length + room : Nat) : Int) →
      voicesLoop ids sid body voices tasks index (some c) =
        (tasks ++ enumTasks index ((eligVoices ids sid body voices).take room),
         index + min room (eligVoices ids sid body voices).length) := by
  intro voices
  induction voices with
  | nil =>
    intro tasks index room c h1 hc
    simp [voicesLoop, eligVoices, enumTasks]
  | cons v rest ih =>
    intro tasks index room c h1 hc
    obtain ⟨k, rfl⟩ : ∃ k, room = k + 1 := ⟨room - 1, by omega⟩
    by_cases hv : v.character2dId ∈ ids
    · have hel : eligVoices ids sid body (v :: rest) =
          VoiceRef.mk sid v.voiceId (pyReplace ['\n'] [] body) ::
            eligVoices ids sid body rest := by
        simp [eligVoices, List.filter_cons, hv]
      rw [hel]
      simp only [voicesLoop, if_pos hv]
      by_cases hk : k = 0
      · subst hk
        have hcap : capHit (some c)
            (tasks ++ [Task.mk sid v.voiceId index (pyReplace ['\n'] [] body)]).length
              = true := by
          rw [capHit_some_iff]
          subst hc
          simp only [List.length_append, List.length_cons, List.length_nil]
          constructor
          · intro hcontra
            omega
          · push_cast
            omega
        rw [if_pos hcap]
        have hmin : min (0 + 1) ((eligVoices ids sid body rest).length + 1) = 1 := by
          omega
        simp only [List.length_cons, hmin, List.take_succ_cons, List.take_zero, enumTasks]
      · have hcap : capHit (some c)
            (tasks ++ [Task.mk sid v.voiceId index (pyReplace ['\n'] [] body)]).length
              = false := by
          rw [Bool.eq_false_iff]
          rw [Ne, capHit_some_iff]
          subst hc
          simp only [List.length_append, List.length_cons, List.length_nil]
          push_cast
          omega
        rw [if_neg (by rw [hcap]; exact Bool.false_ne_true)]
        rw [ih (tasks ++ [Task.mk sid v.voiceId index (pyReplace ['\n'] [] body)])
          (index + 1) k c (by omega)
          (by subst hc; simp only [List.length_append, List.length_cons, List.length_nil];
              push_cast; omega)]
        rw [List.take_succ_cons, List.length_cons]
        have h2 : enumTasks index
            (VoiceRef.mk sid v.voiceId (pyReplace ['\n'] [] body) ::
              List.take k (eligVoices ids sid body rest)) =
            Task.mk sid v.voiceId index (pyReplace ['\n'] [] body) ::
              enumTasks (index + 1) (List.take k (eligVoices ids sid body rest)) := rfl
        rw [h2, ← List.append_cons]
        have h3 : index + 1 + min k (eligVoices ids sid body rest).length =
            index + min (k + 1) ((eligVoices ids sid body rest).length + 1) := by
          omega
        rw [h3]
    · have hel : eligVoices ids sid body (v :: rest) = eligVoices ids sid body rest := by
        simp [eligVoices, List.filter_cons, hv]
      rw [hel]
      simp only [voicesLoop, if_neg hv]
      exact ih tasks index (k + 1) c h1 hc

theorem talkLoop_spec (ids : List Int) (sid : String) :
    ∀ entries : List TalkEntry, ∀ tasks : List Task, ∀ index room : Nat, ∀ c : Int,
      1 ≤ room → c = ((tasks.length + room : Nat) : Int) →
      talkLoop ids sid entries tasks index (some c) =
        (tasks ++ enumTasks index ((eligEntries ids sid entries).take room),
         index + min room (eligEntries ids sid entries).length) := by
  intro entries
  induction entries with
  | nil =>
    intro tasks index room c h1 hc
    simp [talkLoop, eligEntries, enumTasks]
  | cons e rest ih =>
    intro tasks index room c h1 hc
    by_cases h1s : (e.talkCharacters.map (fun t => t.character2dId)).length = 1
    · by_cases h2s : ((e.talkCharacters.map (fun t => t.character2dId)).filter
          (fun x => !(decide (x ∈ ids)))).length = 0
      · -- the entry passes both guards
        have hpass : entryPasses ids e = true := by
          simp only [entryPasses]
          rw [decide_eq_true h1s, decide_eq_true h2s]
          rfl
        have hel : eligEntries ids sid (e :: rest) =
            eligVoices ids sid e.body e.voices ++ eligEntries ids sid rest := by
          simp [eligEntries, List.filter_cons, hpass, eligibleVoicesOfEntry]
        rw [hel]
        simp only [talkLoop, if_pos h1s, if_pos h2s]
        rw [voicesLoop_spec ids sid e.body e.voices tasks index room c h1 hc]
        have hlenE : (tasks ++ enumTasks index
            ((eligVoices ids sid e.body e.voices).take room)).length =
            tasks.length + min room (eligVoices ids sid e.body e.voices).length := by
          simp [enumTasks_length, List.length_take]
        by_cases hroom : room ≤ (eligVoices ids sid e.body e.voices).length
        · -- the cap is hit inside this entry
          have hcap : capHit (some c) (tasks ++ enumTasks index
              ((eligVoices ids sid e.body e.voices).take room)).length = true := by
            rw [capHit_some_iff, hlenE]
            subst hc
            constructor
            · intro hcontra; omega
            · push_cast; omega
          rw [if_pos hcap]
          have htake : (eligVoices ids sid e.body e.voices ++ eligEntries ids sid rest).take
              room = (eligVoices ids sid e.body e.voices).take room := by
            rw [List.take_append_eq_append_take]
            have hz : room - (eligVoices ids sid e.body e.voices).length = 0 := by omega
            rw [hz]
            simp
          rw [htake]
          have hmin1 : min room (eligVoices ids sid e.body e.voices).length = room := by
            omega
          have hmin2 : min room (eligVoices ids sid e.body e.voices ++
              eligEntries ids sid rest).length = room := by
            rw [List.length_append]
            omega
          rw [hmin1, hmin2]
        · -- this entry is exhausted, continue with the rest
          push_neg at hroom
          have hcap : capHit (some c) (tasks ++ enumTasks index
              ((eligVoices ids sid e.body e.voices).take room)).length = false := by
            rw [Bool.eq_false_iff, Ne, capHit_some_iff, hlenE]
            subst hc
            push_cast
            omega
          rw [if_neg (by rw [hcap]; exact Bool.false_ne_true)]
          have htakeE : (eligVoices ids sid e.body e.voices).take room =
              eligVoices ids sid e.body e.voices :=
            List.take_of_length_le (by omega)
          rw [htakeE]
          have hminE : min room (eligVoices ids sid e.body e.voices).length =
              (eligVoices ids sid e.body e.voices).length := by omega
          rw [hminE]
          rw [ih (tasks ++ enumTasks index (eligVoices ids sid e.body e.voices))
            (index + (eligVoices ids sid e.body e.voices).length)
            (room - (eligVoices ids sid e.body e.voices).length) c
            (by omega)
            (by subst hc
                simp only [List.length_append, enumTasks_length]
                push_cast
                omega)]
          rw [List.take_append_eq_append_take, htakeE]
          rw [enumTasks_append, List.append_assoc]
          simp only [Prod.mk.injEq, List.length_append]
          refine ⟨by trivial, by omega⟩
      · -- second guard fails: the entry is skipped
        have hpass : entryPasses ids e = false := by
          simp only [entryPasses]
          rw [decide_eq_false h2s]
          simp
        have hel : eligEntries ids sid (e :: rest) = eligEntries ids sid rest := by
          simp [eligEntries, List.filter_cons, hpass]
        rw [hel]
        simp only [talkLoop, if_pos h1s, if_neg h2s]
        exact ih tasks index room c h1 hc
    · -- first guard fails: the entry is skipped
      have hpass : entryPasses ids e = false := by
        simp only [entryPasses]
        rw [decide_eq_false h1s]
        simp
      have hel : eligEntries ids sid (e :: rest) = eligEntries ids sid rest := by
        simp [eligEntries, List.filter_cons, hpass]
      rw [hel]
      simp only [talkLoop, if_neg h1s]
      exact ih tasks index room c h1 hc

theorem parseAndDownloadAsset_spec (ids : List Int) (asset : Asset) (sid : String)
    (index : Nat) (n : Int) (dOk : Task → Bool) (h : 1 ≤ n) :
    parseAndDownloadAsset ids asset sid index (some n) dOk =
      (enumTasks index ((eligibleVoicesOfAsset ids sid asset).take n.toNat),
       if (enumTasks index ((eligibleVoicesOfAsset ids sid asset).take n.toNat)).all dOk
       then ParseResult.ok
         (index + min n.toNat (eligibleVoicesOfAsset ids sid asset).length)
       else ParseResult.notFound) := by
  have hroom : 1 ≤ n.toNat := by omega
  have hc : n = ((([] : List Task).length + n.toNat : Nat) : Int) := by
    simp only [List.length_nil, Nat.zero_add]
    omega
  have htalk := talkLoop_spec ids sid asset.talkData [] index n.toNat n hroom hc
  simp only [List.nil_append] at htalk
  simp only [parseAndDownloadAsset, htalk, eligibleVoicesOfAsset]
  by_cases hempty : (eligEntries ids sid asset.talkData).take n.toNat = []
  · have hE : eligEntries ids sid asset.talkData = [] := by
      rcases List.take_eq_nil_iff.mp hempty with h0 | h0
      · omega
      · exact h0
    simp [hE, enumTasks, List.isEmpty_nil]
  · have hne : ¬ ((enumTasks index
        ((eligEntries ids sid asset.talkData).take n.toNat)).isEmpty = true) := by
      rw [List.isEmpty_iff]
      intro hcontra
      apply hempty
      have hlen := congrArg List.length hcontra
      rw [enumTasks_length] at hlen
      simp only [List.length_nil] at hlen
      exact List.length_eq_zero.mp hlen
    rw [if_neg hne]
    have hn0 : n ≠ 0 := by omega
    have hslice : pySliceTo (enumTasks index
        ((eligEntries ids sid asset.talkData).take n.toNat)) n =
        enumTasks index ((eligEntries ids sid asset.talkData).take n.toNat) := by
      simp only [pySliceTo, if_pos (by omega : (0 : Int) ≤ n)]
      apply List.take_of_length_le
      rw [enumTasks_length, List.length_take]
      omega
    simp only [if_pos hn0, hslice]
    simp only [asCompletedCollect_snd, all_map_id]
    by_cases hall : (enumTasks index
        ((eligEntries ids sid asset.talkData).take n.toNat)).all dOk = true
    · rw [if_pos hall, if_pos hall]
    · rw [if_neg hall, if_neg hall]

theorem parseAndDownloadAsset_allOk (ids : List Int) (asset : Asset) (sid : String)
    (index : Nat) (n : Int) (h : 1 ≤ n) :
    parseAndDownloadAsset ids asset sid index (some n) (fun _ => true) =
      (enumTasks index ((eligibleVoicesOfAsset ids sid asset).take n.toNat),
       ParseResult.ok
         (index + min n.toNat (eligibleVoicesOfAsset ids sid asset).length)) := by
  rw [parseAndDownloadAsset_spec ids asset sid index n (fun _ => true) h]
  simp [List.all_eq_true]

theorem eligScenarios_nil (ids : List Int) (assetOf : String → String → Asset)
    (bundle : String) : eligScenarios ids assetOf bundle [] = [] := rfl

theorem eligScenarios_cons (ids : List Int) (assetOf : String → String → Asset)
    (bundle : String) (sid : String) (rest : List String) :
    eligScenarios ids assetOf bundle (sid :: rest) =
      eligibleVoicesOfAsset ids sid (assetOf bundle sid) ++
        eligScenarios ids assetOf bundle rest := by
  simp [eligScenarios]

theorem scenLoop_spec (ids : List Int) (assetOf : String → String → Asset)
    (bundle : String) :
    ∀ sids : List String, ∀ remaining : Int, ∀ index : Nat, ∀ acc : List (List Task),
      1 ≤ remaining →
      ((((eligScenarios ids assetOf bundle sids).length : Int) < remaining →
        ∃ acc', scenLoop ids assetOf (fun _ => true) bundle sids remaining index acc =
            ScenStep.next (remaining - (eligScenarios ids assetOf bundle sids).length)
              (index + (eligScenarios ids assetOf bundle sids).length) acc'
          ∧ acc'.flatten = acc.flatten ++
              enumTasks index (eligScenarios ids assetOf bundle sids))
      ∧ (remaining ≤ ((eligScenarios ids assetOf bundle sids).length : Int) →
        ∃ acc', scenLoop ids assetOf (fun _ => true) bundle sids remaining index acc =
            ScenStep.stopCap acc'
          ∧ acc'.flatten = acc.flatten ++
              enumTasks index
                ((eligScenarios ids assetOf bundle sids).take remaining.toNat))) := by
  intro sids
  induction sids with
  | nil =>
    intro remaining index acc h1
    constructor
    · intro _
      refine ⟨acc, ?_, by simp [eligScenarios_nil, enumTasks]⟩
      simp [scenLoop, eligScenarios_nil]
    · intro hcontra
      rw [eligScenarios_nil] at hcontra
      simp only [List.length_nil, Int.natCast_zero] at hcontra
      omega
  | cons sid rest ih =>
    intro remaining index acc h1
    have hr := eligScenarios_cons ids assetOf bundle sid rest
    have hparse := parseAndDownloadAsset_allOk ids (assetOf bundle sid) sid index
      remaining h1
    have hloop : scenLoop ids assetOf (fun _ => true) bundle (sid :: rest) remaining
        index acc =
        (let pr := parseAndDownloadAsset ids (assetOf bundle sid) sid index
          (some remaining) (fun _ => true)
         match pr.2 with
         | ParseResult.notFound => ScenStep.stopNotFound (acc ++ [pr.1])
         | ParseResult.ok newIndex =>
           let remaining' := remaining - ((newIndex : Int) - (index : Int))
           if remaining' ≤ 0 then ScenStep.stopCap (acc ++ [pr.1])
           else scenLoop ids assetOf (fun _ => true) bundle rest remaining' newIndex
             (acc ++ [pr.1])) := by
      simp only [scenLoop]
      rw [if_neg (by omega)]
    rw [hparse] at hloop
    simp only at hloop
    have hdelta : remaining -
        (((index + min remaining.toNat
            (eligibleVoicesOfAsset ids sid (assetOf bundle sid)).length : Nat) : Int)
          - (index : Int)) =
        remaining - min remaining.toNat
          (eligibleVoicesOfAsset ids sid (assetOf bundle sid)).length := by
      push_cast
      omega
    rw [hdelta] at hloop
    by_cases hcap : remaining - (min remaining.toNat
        (eligibleVoicesOfAsset ids sid (assetOf bundle sid)).length : Nat) ≤ 0
    · -- the cap is reached in this scenario
      have hel : remaining.toNat ≤
          (eligibleVoicesOfAsset ids sid (assetOf bundle sid)).length := by
        omega
      rw [if_pos hcap] at hloop
      constructor
      · intro hcontra
        rw [hr] at hcontra
        exfalso
        simp only [List.length_append, Int.natCast_add] at hcontra
        omega
      · intro _
        refine ⟨acc ++ [enumTasks index ((eligibleVoicesOfAsset ids sid
          (assetOf bundle sid)).take remaining.toNat)], hloop, ?_⟩
        rw [hr, List.take_append_eq_append_take]
        have hz : remaining.toNat -
            (eligibleVoicesOfAsset ids sid (assetOf bundle sid)).length = 0 := by
          omega
        rw [hz, List.take_zero, List.append_nil]
        simp
    · -- this scenario is exhausted, continue with the remaining scenarios
      have hel : (eligibleVoicesOfAsset ids sid (assetOf bundle sid)).length <
          remaining.toNat := by
        omega
      have hmin : min remaining.toNat
          (eligibleVoicesOfAsset ids sid (assetOf bundle sid)).length =
          (eligibleVoicesOfAsset ids sid (assetOf bundle sid)).length := by
        omega
      have htk : (eligibleVoicesOfAsset ids sid (assetOf bundle sid)).take
          remaining.toNat = eligibleVoicesOfAsset ids sid (assetOf bundle sid) :=
        List.take_of_length_le (by omega)
      rw [if_neg hcap, hmin, htk] at hloop
      have hrem1 : 1 ≤ remaining -
          ((eligibleVoicesOfAsset ids sid (assetOf bundle sid)).length : Int) := by
        omega
      have hihres := ih (remaining -
          ((eligibleVoicesOfAsset ids sid (assetOf bundle sid)).length : Int))
        (index + (eligibleVoicesOfAsset ids sid (assetOf bundle sid)).length)
        (acc ++ [enumTasks index (eligibleVoicesOfAsset ids sid (assetOf bundle sid))])
        hrem1
      constructor
      · intro hlt
        rw [hr] at hlt
        simp only [List.length_append, Int.natCast_add] at hlt
        obtain ⟨acc', heq, hflat⟩ := hihres.1 (by omega)
        refine ⟨acc', ?_, ?_⟩
        · rw [hloop, heq]
          rw [hr]
          congr 1
          · simp only [List.length_append]
            push_cast
            omega
          · simp only [List.length_append]
            omega
        · rw [hflat, hr, enumTasks_append]
          simp only [List.flatten_append, List.flatten_cons, List.flatten_nil,
            List.append_nil, List.append_assoc]
      · intro hle
        rw [hr] at hle
        simp only [List.length_append, Int.natCast_add] at hle
        obtain ⟨acc', heq, hflat⟩ := hihres.2 (by omega)
        refine ⟨acc', ?_, ?_⟩
        · rw [hloop, heq]
        · rw [hflat, hr]
          have hrn : (remaining -
              ((eligibleVoicesOfAsset ids sid (assetOf bundle sid)).length : Int)).toNat =
              remaining.toNat -
                (eligibleVoicesOfAsset ids sid (assetOf bundle sid)).length := by
            omega
          rw [hrn, List.take_append_eq_append_take, htk, enumTasks_append]
          simp only [List.flatten_append, List.flatten_cons, List.flatten_nil,
            List.append_nil, List.append_assoc]

theorem eligCards_nil (ids : List Int) (assetOf : String → String → Asset)
    (episodes : List EpisodeRec) : eligCards ids assetOf episodes [] = [] := rfl

theorem eligCards_cons (ids : List Int) (assetOf : String → String → Asset)
    (episodes : List EpisodeRec) (card : CardRec) (rest : List CardRec) :
    eligCards ids assetOf episodes (card :: rest) =
      eligScenarios ids assetOf card.assetbundleName
          (scenarioIdsByAssetbundle episodes card.assetbundleName) ++
        eligCards ids assetOf episodes rest := by
  simp [eligCards]

theorem cardsLoop_spec (ids : List Int) (assetOf : String → String → Asset)
    (episodes : List EpisodeRec) :
    ∀ cardsL : List CardRec, ∀ remaining : Int, ∀ index : Nat,
      ∀ acc : List (List Task), 1 ≤ remaining →
      ((((eligCards ids assetOf episodes cardsL).length : Int) < remaining →
        ∃ acc', cardsLoop ids assetOf (fun _ => true) episodes cardsL remaining index acc
            = CardsRun.mk acc' CardsOutcome.exhausted
          ∧ acc'.flatten = acc.flatten ++
              enumTasks index (eligCards ids assetOf episodes cardsL))
      ∧ (remaining ≤ ((eligCards ids assetOf episodes cardsL).length : Int) →
        ∃ acc', cardsLoop ids assetOf (fun _ => true) episodes cardsL remaining index acc
            = CardsRun.mk acc' CardsOutcome.capDone
          ∧ acc'.flatten = acc.flatten ++
              enumTasks index
                ((eligCards ids assetOf episodes cardsL).take remaining.toNat))) := by
  intro cardsL
  induction cardsL with
  | nil =>
    intro remaining index acc h1
    constructor
    · intro _
      exact ⟨acc, rfl, by simp [eligCards_nil, enumTasks]⟩
    · intro hcontra
      rw [eligCards_nil] at hcontra
      simp only [List.length_nil, Int.natCast_zero] at hcontra
      omega
  | cons card rest ih =>
    intro remaining index acc h1
    have hr := eligCards_cons ids assetOf episodes card rest
    have hloop : cardsLoop ids assetOf (fun _ => true) episodes (card :: rest)
        remaining index acc =
        (match scenLoop ids assetOf (fun _ => true) card.assetbundleName
            (scenarioIdsByAssetbundle episodes card.assetbundleName)
            remaining index acc with
         | ScenStep.stopNotFound acc' => CardsRun.mk acc' CardsOutcome.notFound
         | ScenStep.stopCap acc' => CardsRun.mk acc' CardsOutcome.capDone
         | ScenStep.next remaining' index' acc' =>
           cardsLoop ids assetOf (fun _ => true) episodes rest remaining' index' acc') := by
      simp only [cardsLoop]
      rw [if_neg (by omega)]
    have hscen := scenLoop_spec ids assetOf card.assetbundleName
      (scenarioIdsByAssetbundle episodes card.assetbundleName) remaining index acc h1
    by_cases hcap : remaining ≤ ((eligScenarios ids assetOf card.assetbundleName
        (scenarioIdsByAssetbundle episodes card.assetbundleName)).length : Int)
    · -- the cap is reached inside this card
      obtain ⟨acc', heq, hflat⟩ := hscen.2 hcap
      rw [heq] at hloop
      simp only at hloop
      constructor
      · intro hcontra
        rw [hr] at hcontra
        exfalso
        simp only [List.length_append, Int.natCast_add] at hcontra
        omega
      · intro _
        refine ⟨acc', hloop, ?_⟩
        rw [hflat, hr, List.take_append_eq_append_take]
        have hz : remaining.toNat - (eligScenarios ids assetOf card.assetbundleName
            (scenarioIdsByAssetbundle episodes card.assetbundleName)).length = 0 := by
          omega
        rw [hz, List.take_zero, List.append_nil]
    · -- this card is exhausted, continue with the remaining cards
      push_neg at hcap
      obtain ⟨acc', heq, hflat⟩ := hscen.1 hcap
      rw [heq] at hloop
      simp only at hloop
      have hrem1 : 1 ≤ remaining - ((eligScenarios ids assetOf card.assetbundleName
          (scenarioIdsByAssetbundle episodes card.assetbundleName)).length : Int) := by
        omega
      have hihres := ih (remaining - ((eligScenarios ids assetOf card.assetbundleName
          (scenarioIdsByAssetbundle episodes card.assetbundleName)).length : Int))
        (index + (eligScenarios ids assetOf card.assetbundleName
          (scenarioIdsByAssetbundle episodes card.assetbundleName)).length)
        acc' hrem1
      constructor
      · intro hlt
        rw [hr] at hlt
        simp only [List.length_append, Int.natCast_add] at hlt
        obtain ⟨acc'', heq2, hflat2⟩ := hihres.1 (by omega)
        refine ⟨acc'', ?_, ?_⟩
        · rw [hloop, heq2]
        · rw [hflat2, hflat, hr, enumTasks_append, List.append_assoc]
      · intro hle
        rw [hr] at hle
        simp only [List.length_append, Int.natCast_add] at hle
        obtain ⟨acc'', heq2, hflat2⟩ := hihres.2 (by omega)
        refine ⟨acc'', ?_, ?_⟩
        · rw [hloop, heq2]
        · rw [hflat2, hflat, hr]
          have hrn : (remaining - ((eligScenarios ids assetOf card.assetbundleName
              (scenarioIdsByAssetbundle episodes card.assetbundleName)).length :
                Int)).toNat =
              remaining.toNat - (eligScenarios ids assetOf card.assetbundleName
                (scenarioIdsByAssetbundle episodes card.assetbundleName)).length := by
            omega
          rw [hrn, List.take_append_eq_append_take]
          have htk : (eligScenarios ids assetOf card.assetbundleName
              (scenarioIdsByAssetbundle episodes card.assetbundleName)).take
                remaining.toNat =
              eligScenarios ids assetOf card.assetbundleName
                (scenarioIdsByAssetbundle episodes card.assetbundleName) :=
            List.take_of_length_le (by omega)
          rw [htk, enumTasks_append, List.append_assoc]

/-! ## Membership lemmas: every produced task comes from an eligible voice -/

theorem voicesLoop_mem (ids : List Int) (sid : String) (body : List Char) :
    ∀ voices : List Voice, ∀ tasks : List Task, ∀ index : Nat, ∀ count : Option Int,
      ∀ t : Task, t ∈ (voicesLoop ids sid body voices tasks index count).1 →
      t ∈ tasks ∨ ∃ v, v ∈ voices ∧ v.character2dId ∈ ids ∧
        t.scenarioId = sid ∧ t.voiceId = v.voiceId := by
  intro voices
  induction voices with
  | nil =>
    intro tasks index count t ht
    exact Or.inl ht
  | cons v rest ih =>
    intro tasks index count t ht
    by_cases hv : v.character2dId ∈ ids
    · simp only [voicesLoop, if_pos hv] at ht
      by_cases hcap : capHit count
          (tasks ++ [Task.mk sid v.voiceId index (pyReplace ['\n'] [] body)]).length = true
      · rw [if_pos hcap] at ht
        simp only at ht
        rcases List.mem_append.mp ht with h | h
        · exact Or.inl h
        · simp only [List.mem_singleton] at h
          subst h
          exact Or.inr ⟨v, List.mem_cons_self _ _, hv, rfl, rfl⟩
      · rw [if_neg hcap] at ht
        rcases ih _ _ _ t ht with h | ⟨v', hv', hins, hsc, hvd⟩
        · rcases List.mem_append.mp h with h2 | h2
          · exact Or.inl h2
          · simp only [List.mem_singleton] at h2
            subst h2
            exact Or.inr ⟨v, List.mem_cons_self _ _, hv, rfl, rfl⟩
        · exact Or.inr ⟨v', List.mem_cons_of_mem _ hv', hins, hsc, hvd⟩
    · simp only [voicesLoop, if_neg hv] at ht
      rcases ih _ _ _ t ht with h | ⟨v', hv', hins, hsc, hvd⟩
      · exact Or.inl h
      · exact Or.inr ⟨v', List.mem_cons_of_mem _ hv', hins, hsc, hvd⟩

theorem talkLoop_mem (ids : List Int) (sid : String) :
    ∀ entries : List TalkEntry, ∀ tasks : List Task, ∀ index : Nat, ∀ count : Option Int,
      ∀ t : Task, t ∈ (talkLoop ids sid entries tasks index count).1 →
      t ∈ tasks ∨ ∃ e, e ∈ entries ∧ entryPasses ids e = true ∧
        ∃ v, v ∈ e.voices ∧ v.character2dId ∈ ids ∧
          t.scenarioId = sid ∧ t.voiceId = v.voiceId := by
  intro entries
  induction entries with
  | nil =>
    intro tasks index count t ht
    exact Or.inl ht
  | cons e rest ih =>
    intro tasks index count t ht
    by_cases h1s : (e.talkCharacters.map (fun tc => tc.character2dId)).length = 1
    · by_cases h2s : ((e.talkCharacters.map (fun tc => tc.character2dId)).filter
          (fun x => !(decide (x ∈ ids)))).length = 0
      · have hpass : entryPasses ids e = true := by
          simp only [entryPasses]
          rw [decide_eq_true h1s, decide_eq_true h2s]
          rfl
        simp only [talkLoop, if_pos h1s, if_pos h2s] at ht
        by_cases hcap : capHit count
            (voicesLoop ids sid e.body e.voices tasks index count).1.length = true
        · rw [if_pos hcap] at ht
          rcases voicesLoop_mem ids sid e.body e.voices tasks index count t ht with
            h | ⟨v, hvmem, hins, hsc, hvd⟩
          · exact Or.inl h
          · exact Or.inr ⟨e, List.mem_cons_self _ _, hpass, v, hvmem, hins, hsc, hvd⟩
        · rw [if_neg hcap] at ht
          rcases ih _ _ _ t ht with h | ⟨e', he', hpass', v, hvmem, hins, hsc, hvd⟩
          · rcases voicesLoop_mem ids sid e.body e.voices tasks index count t h with
              h2 | ⟨v, hvmem, hins, hsc, hvd⟩
            · exact Or.inl h2
            · exact Or.inr ⟨e, List.mem_cons_self _ _, hpass, v, hvmem, hins, hsc, hvd⟩
          · exact Or.inr ⟨e', List.mem_cons_of_mem _ he', hpass', v, hvmem, hins, hsc, hvd⟩
      · simp only [talkLoop, if_pos h1s, if_neg h2s] at ht
        rcases ih _ _ _ t ht with h | ⟨e', he', hpass', hrest⟩
        · exact Or.inl h
        · exact Or.inr ⟨e', List.mem_cons_of_mem _ he', hpass', hrest⟩
    · simp only [talkLoop, if_neg h1s] at ht
      rcases ih _ _ _ t ht with h | ⟨e', he', hpass', hrest⟩
      · exact Or.inl h
      · exact Or.inr ⟨e', List.mem_cons_of_mem _ he', hpass', hrest⟩

theorem parseAndDownloadAsset_mem (ids : List Int) (asset : Asset) (sid : String)
    (index : Nat) (count : Option Int) (dOk : Task → Bool) :
    ∀ t : Task, t ∈ (parseAndDownloadAsset ids asset sid index count dOk).1 →
      ∃ e, e ∈ asset.talkData ∧ entryPasses ids e = true ∧
        ∃ v, v ∈ e.voices ∧ v.character2dId ∈ ids ∧
          t.scenarioId = sid ∧ t.voiceId = v.voiceId := by
  intro t ht
  have hsub : t ∈ (talkLoop ids sid asset.talkData [] index count).1 := by
    simp only [parseAndDownloadAsset] at ht
    by_cases hempty : (talkLoop ids sid asset.talkData [] index count).1.isEmpty = true
    · rw [if_pos hempty] at ht
      simp at ht
    · rw [if_neg hempty] at ht
      have hsub2 : ∀ x, x ∈ (match count with
          | some c => if c ≠ 0 then
              pySliceTo (talkLoop ids sid asset.talkData [] index count).1 c
            else (talkLoop ids sid asset.talkData [] index count).1
          | none => (talkLoop ids sid asset.talkData [] index count).1) →
          x ∈ (talkLoop ids sid asset.talkData [] index count).1 := by
        intro x hx
        cases count with
        | none => exact hx
        | some c =>
          simp only at hx
          by_cases hc : c ≠ 0
          · rw [if_pos hc] at hx
            simp only [pySliceTo] at hx
            by_cases hcpos : (0 : Int) ≤ c
            · rw [if_pos hcpos] at hx
              exact List.take_subset _ _ hx
            · rw [if_neg hcpos] at hx
              exact List.take_subset _ _ hx
          · rw [if_neg hc] at hx
            exact hx
      by_cases hall : (asCompletedCollect ((match count with
          | some c => if c ≠ 0 then
              pySliceTo (talkLoop ids sid asset.talkData [] index count).1 c
            else (talkLoop ids sid asset.talkData [] index count).1
          | none => (talkLoop ids sid asset.talkData [] index count).1).map dOk)).2 = true
      · rw [if_pos hall] at ht
        exact hsub2 t ht
      · rw [if_neg hall] at ht
        exact hsub2 t ht
  rcases talkLoop_mem ids sid asset.talkData [] index count t hsub with h | h
  · simp at h
  · exact h

theorem entryPasses_iff (ids : List Int) (e : TalkEntry) :
    entryPasses ids e = true ↔
      ((e.talkCharacters.map (fun tc => tc.character2dId)).length = 1
        ∧ ∀ x ∈ e.talkCharacters.map (fun tc => tc.character2dId), x ∈ ids) := by
  simp only [entryPasses, Bool.and_eq_true, decide_eq_true_eq, List.length_eq_zero,
    List.filter_eq_nil_iff, Bool.not_eq_true', decide_eq_false_iff_not, not_not]

/-! ## The manifest line format -/

theorem serializeManifestFormat_safe (path text : List Char)
    (h : ¬ ((("\x7btext\x7d").data) <:+: path)) :
    serializeManifestFormat path text = path ++ '|' :: text := by
  have hstep1 : pyReplace (("\x7bpath\x7d").data) path defaultManifestFormat =
      path ++ ('|' :: (("\x7btext\x7d").data)) := by
    have hfmt : defaultManifestFormat =
        (("\x7bpath\x7d").data) ++ ('|' :: (("\x7btext\x7d").data)) := rfl
    rw [hfmt, pyReplace_head_match _ _ _ (by decide)]
    congr 1
  rw [serializeManifestFormat, hstep1]
  have hsubfalse : containsSub (("\x7btext\x7d").data) path = false := by
    rw [Bool.eq_false_iff]
    intro hc
    exact h ((containsSub_eq_true_iff _ path).mp hc)
  have hnm : noMatchIn (("\x7btext\x7d").data) ('|' :: (("\x7btext\x7d").data))
      path = true := by
    apply noMatchIn_of_not_containsSub
    · intro k hk1 hk6
      have hlen : ((("\x7btext\x7d").data)).length = 6 := rfl
      rw [hlen] at hk6
      interval_cases k <;> decide
    · exact hsubfalse
  rw [pyReplace_append_noMatch _ _ _ path hnm]
  congr 1
  rw [show ('|' :: (("\x7btext\x7d").data)) = ['|'] ++ (("\x7btext\x7d").data) from rfl]
  rw [pyReplace_append_noMatch _ _ _ (['|']) (by decide)]
  rw [pyReplace_self _ _ (by decide)]
  rfl

theorem parseAndDownloadAsset_allFail (ids : List Int) (asset : Asset) (sid : String)
    (index : Nat) (n : Int) (h1 : 1 ≤ n)
    (hne : eligibleVoicesOfAsset ids sid asset ≠ []) :
    parseAndDownloadAsset ids asset sid index (some n) (fun _ => false) =
      (enumTasks index ((eligibleVoicesOfAsset ids sid asset).take n.toNat),
       ParseResult.notFound) := by
  rw [parseAndDownloadAsset_spec ids asset sid index n (fun _ => false) h1]
  have htk : (eligibleVoicesOfAsset ids sid asset).take n.toNat ≠ [] := by
    intro hcontra
    rcases List.take_eq_nil_iff.mp hcontra with h0 | h0
    · omega
    · exact hne h0
  have hall : (enumTasks index ((eligibleVoicesOfAsset ids sid asset).take n.toNat)).all
      (fun _ => false) = false := by
    cases hx : (eligibleVoicesOfAsset ids sid asset).take n.toNat with
    | nil => exact absurd hx htk
    | cons r rs =>
      simp [enumTasks, List.all_cons]
  rw [hall]
  simp

/-! ## The claims -/

/-- C1: For every character id and every cap N > 0, if the card-voice
datasets contain more than N eligible talk-entry voice references across all
of the character's cards and scenarios, then card-voice enumeration produces
exactly N download tasks, the Nth task is the Nth eligible entry in
enumeration order (cards, then scenarios, then talk entries, then voices, in
dataset iteration order), numbering is continuous across cards and scenarios
(the kth task carries file index k), and the invocation stops through the
cap-reached return, mid-card or mid-scenario. -/
theorem c1_card_voice_cap (c2ds : List Character2dRec) (cards : List CardRec)
    (episodes : List EpisodeRec) (assetOf : String → String → Asset) (cid : Int)
    (N : Int) (h1 : 1 ≤ N)
    (h2 : N < ((eligibleAcrossCards c2ds cards episodes assetOf cid).length : Int)) :
    (downloadCharacterCardsVoices c2ds cards episodes assetOf (fun _ => true)
        cid N).batches.flatten =
      enumTasks 1 ((eligibleAcrossCards c2ds cards episodes assetOf cid).take N.toNat)
    ∧ (downloadCharacterCardsVoices c2ds cards episodes assetOf (fun _ => true)
        cid N).batches.flatten.length = N.toNat
    ∧ (downloadCharacterCardsVoices c2ds cards episodes assetOf (fun _ => true)
        cid N).batches.flatten.map Task.idx = List.range' 1 N.toNat
    ∧ (downloadCharacterCardsVoices c2ds cards episodes assetOf (fun _ => true)
        cid N).outcome = CardsOutcome.capDone := by
  have hE : ((eligCards (character2dIdsByCharacter c2ds cid) assetOf episodes
      (cardsByCharacter cards cid)).length : Int) =
      ((eligibleAcrossCards c2ds cards episodes assetOf cid).length : Int) := rfl
  obtain ⟨acc', heq, hflat⟩ := (cardsLoop_spec (character2dIdsByCharacter c2ds cid)
    assetOf episodes (cardsByCharacter cards cid) N 1 [] h1).2 (by rw [hE]; omega)
  have hrun : downloadCharacterCardsVoices c2ds cards episodes assetOf (fun _ => true)
      cid N = CardsRun.mk acc' CardsOutcome.capDone := heq
  rw [hrun]
  simp only [List.flatten_nil, List.nil_append] at hflat
  have hEE : eligCards (character2dIdsByCharacter c2ds cid) assetOf episodes
      (cardsByCharacter cards cid) = eligibleAcrossCards c2ds cards episodes assetOf cid :=
    rfl
  rw [hEE] at hflat
  have hbatches : (CardsRun.mk acc' CardsOutcome.capDone).batches = acc' := rfl
  rw [hbatches, hflat]
  have hlen : (enumTasks 1 ((eligibleAcrossCards c2ds cards episodes assetOf
      cid).take N.toNat)).length = N.toNat := by
    rw [enumTasks_length, List.length_take]
    omega
  refine ⟨rfl, hlen, ?_, rfl⟩
  rw [enumTasks_map_idx, List.length_take]
  have hmin : min N.toNat (eligibleAcrossCards c2ds cards episodes assetOf cid).length
      = N.toNat := by omega
  rw [hmin]

/-- Witness for C1 at a concrete dataset: one card with one scenario holding
two eligible voices, cap 1. -/
theorem c1_card_voice_cap_witness :
    (1 : Int) ≤ 1
    ∧ (1 : Int) < ((eligibleAcrossCards [Character2dRec.mk 10 1] [CardRec.mk 1 ("b")]
        [EpisodeRec.mk ("b") ("s")]
        (fun _ _ => Asset.mk [TalkEntry.mk [TalkCharacter.mk 10]
          [Voice.mk 10 ("v1"), Voice.mk 10 ("v2")] []]) 1).length : Int)
    ∧ ((downloadCharacterCardsVoices [Character2dRec.mk 10 1] [CardRec.mk 1 ("b")]
        [EpisodeRec.mk ("b") ("s")]
        (fun _ _ => Asset.mk [TalkEntry.mk [TalkCharacter.mk 10]
          [Voice.mk 10 ("v1"), Voice.mk 10 ("v2")] []]) (fun _ => true)
        1 1).batches.flatten =
      enumTasks 1 ((eligibleAcrossCards [Character2dRec.mk 10 1] [CardRec.mk 1 ("b")]
        [EpisodeRec.mk ("b") ("s")]
        (fun _ _ => Asset.mk [TalkEntry.mk [TalkCharacter.mk 10]
          [Voice.mk 10 ("v1"), Voice.mk 10 ("v2")] []]) 1).take (1 : Int).toNat)
    ∧ (downloadCharacterCardsVoices [Character2dRec.mk 10 1] [CardRec.mk 1 ("b")]
        [EpisodeRec.mk ("b") ("s")]
        (fun _ _ => Asset.mk [TalkEntry.mk [TalkCharacter.mk 10]
          [Voice.mk 10 ("v1"), Voice.mk 10 ("v2")] []]) (fun _ => true)
        1 1).batches.flatten.length = (1 : Int).toNat
    ∧ (downloadCharacterCardsVoices [Character2dRec.mk 10 1] [CardRec.mk 1 ("b")]
        [EpisodeRec.mk ("b") ("s")]
        (fun _ _ => Asset.mk [TalkEntry.mk [TalkCharacter.mk 10]
          [Voice.mk 10 ("v1"), Voice.mk 10 ("v2")] []]) (fun _ => true)
        1 1).batches.flatten.map Task.idx = List.range' 1 (1 : Int).toNat
    ∧ (downloadCharacterCardsVoices [Character2dRec.mk 10 1] [CardRec.mk 1 ("b")]
        [EpisodeRec.mk ("b") ("s")]
        (fun _ _ => Asset.mk [TalkEntry.mk [TalkCharacter.mk 10]
          [Voice.mk 10 ("v1"), Voice.mk 10 ("v2")] []]) (fun _ => true)
        1 1).outcome = CardsOutcome.capDone) :=
  ⟨by decide, by decide,
    c1_card_voice_cap [Character2dRec.mk 10 1] [CardRec.mk 1 ("b")]
      [EpisodeRec.mk ("b") ("s")]
      (fun _ _ => Asset.mk [TalkEntry.mk [TalkCharacter.mk 10]
        [Voice.mk 10 ("v1"), Voice.mk 10 ("v2")] []]) 1 1
      (by decide) (by decide)⟩

/-- C2: For every requested character id, solo-song selection keeps a
music-vocal record exactly when its speaker list restricted to
`game_character` entries is the one-element list holding the requested id and
the record joins to an existing music record; the produced task list is the
sequential numbering of exactly the kept records, and a record with two or
more game-character singers is never selected. -/
theorem c2_solo_selection (musics : List Music) (mvs : List MusicVocal) (cid : Int) :
    soloSongsTasks musics mvs cid = enumSoloTasks 1 (mvs.filter (soloSelect musics cid))
    ∧ (∀ mv : MusicVocal, soloSelect musics cid mv = true ↔
        (soloSingers mv = [cid] ∧ (musicsById musics mv.musicId).isSome = true))
    ∧ (∀ mv : MusicVocal, 2 ≤ (soloSingers mv).length →
        soloSelect musics cid mv = false) := by
  refine ⟨soloLoop_eq_enum musics cid mvs 1, fun mv => soloSelect_iff musics cid mv, ?_⟩
  intro mv hlen
  rw [Bool.eq_false_iff]
  intro hsel
  have hone := ((soloSelect_iff musics cid mv).mp hsel).1
  rw [hone] at hlen
  simp at hlen

/-- Witness for C2 at a vocal record with two game-character singers. -/
theorem c2_solo_selection_witness :
    2 ≤ (soloSingers (MusicVocal.mk 1
      [VocalCharacter.mk ("game_character") 5, VocalCharacter.mk ("game_character") 6]
      ("bundle"))).length
    ∧ soloSelect [] 5 (MusicVocal.mk 1
      [VocalCharacter.mk ("game_character") 5, VocalCharacter.mk ("game_character") 6]
      ("bundle")) = false :=
  ⟨by decide, (c2_solo_selection [] [] 5).2.2 (MusicVocal.mk 1
      [VocalCharacter.mk ("game_character") 5, VocalCharacter.mk ("game_character") 6]
      ("bundle")) (by decide)⟩

/-- C3: For every asset document and every 2d-id set, the talk-entry filter
never emits a voice task whose 2d id lies outside the set: every task in the
submitted batch comes from a surviving talk entry (speaker list of length
one, all speakers in the set) and from a voice reference whose
`Character2dId` is in the set; and an entry survives the guards exactly when
its speaker list has one element and every speaker is in the set. -/
theorem c3_talk_filter (ids : List Int) (asset : Asset) (sid : String) (index : Nat)
    (count : Option Int) (dOk : Task → Bool) :
    (∀ t ∈ (parseAndDownloadAsset ids asset sid index count dOk).1,
      ∃ e, e ∈ asset.talkData ∧ entryPasses ids e = true ∧
        ∃ v, v ∈ e.voices ∧ v.character2dId ∈ ids ∧
          t.scenarioId = sid ∧ t.voiceId = v.voiceId)
    ∧ (∀ e : TalkEntry, entryPasses ids e = true ↔
        ((e.talkCharacters.map (fun tc => tc.character2dId)).length = 1
          ∧ ∀ x ∈ e.talkCharacters.map (fun tc => tc.character2dId), x ∈ ids)) :=
  ⟨fun t ht => parseAndDownloadAsset_mem ids asset sid index count dOk t ht,
   fun e => entryPasses_iff ids e⟩

/-- Witness for C3: a concrete two-entry asset in which the second entry has
two speakers; the first produced task comes from the surviving first
entry. -/
theorem c3_talk_filter_witness :
    Task.mk ("s") ("v1") 1 [] ∈
      (parseAndDownloadAsset [10] (Asset.mk
        [TalkEntry.mk [TalkCharacter.mk 10] [Voice.mk 10 ("v1"), Voice.mk 99 ("vx")] [],
         TalkEntry.mk [TalkCharacter.mk 10, TalkCharacter.mk 11] [Voice.mk 10 ("v2")] []])
        ("s") 1 none (fun _ => true)).1
    ∧ ∃ e, e ∈ (Asset.mk
        [TalkEntry.mk [TalkCharacter.mk 10] [Voice.mk 10 ("v1"), Voice.mk 99 ("vx")] [],
         TalkEntry.mk [TalkCharacter.mk 10, TalkCharacter.mk 11] [Voice.mk 10 ("v2")] []]).talkData
      ∧ entryPasses [10] e = true
      ∧ ∃ v, v ∈ e.voices ∧ v.character2dId ∈ ([10] : List Int)
        ∧ (Task.mk ("s") ("v1") 1 []).scenarioId = ("s")
        ∧ (Task.mk ("s") ("v1") 1 []).voiceId = v.voiceId :=
  ⟨by decide,
   (c3_talk_filter [10] (Asset.mk
      [TalkEntry.mk [TalkCharacter.mk 10] [Voice.mk 10 ("v1"), Voice.mk 99 ("vx")] [],
       TalkEntry.mk [TalkCharacter.mk 10, TalkCharacter.mk 11] [Voice.mk 10 ("v2")] []])
      ("s") 1 none (fun _ => true)).1 (Task.mk ("s") ("v1") 1 []) (by decide)⟩

/-- C4: For a fetcher with maximum attempt count N >= 1: a transport failing
on every attempt yields exactly N attempts with N-1 sleeps in between and the
fatal connection failure; a transport failing k < N times and then delivering
a response (of any status, "not found" included) yields that response as a
non-error return after exactly k+1 attempts, without further retries. -/
theorem c4_retry_budget (transport : Nat → Option Response) (N : Nat) (h1 : 1 ≤ N) :
    ((∀ i, transport i = none) →
      getModel transport N = GetResult.mk N (N - 1) GetOutcome.connectError)
    ∧ (∀ k : Nat, ∀ r : Response, k < N → (∀ i, i < k → transport i = none) →
        transport k = some r →
        getModel transport N = GetResult.mk (k + 1) k (GetOutcome.ok r)) := by
  constructor
  · intro hall
    exact getLoop_all_fail transport hall N 0 h1
  · intro k r hk hfail hs
    apply getLoop_succeeds transport k N 0 r hk
    · intro i hi
      rw [Nat.zero_add]
      exact hfail i hi
    · rw [Nat.zero_add]
      exact hs

/-- Witness for C4: max attempts 3 with an always-failing transport, and with
a transport that fails twice and then returns a 404 response. -/
theorem c4_retry_budget_witness :
    getModel (fun _ => none) 3 = GetResult.mk 3 2 GetOutcome.connectError
    ∧ getModel (fun i => if i < 2 then none else some (Response.mk 404 [] Json.null)) 3 =
      GetResult.mk 3 2 (GetOutcome.ok (Response.mk 404 [] Json.null)) := by
  constructor
  · exact (c4_retry_budget (fun _ => none) 3 (by decide)).1 (fun _ => rfl)
  · refine (c4_retry_budget (fun i => if i < 2 then none
      else some (Response.mk 404 [] Json.null)) 3 (by decide)).2 2
      (Response.mk 404 [] Json.null) (by decide) ?_ ?_
    · intro i hi
      simp [hi]
    · rfl

/-- C5: A task with an empty or missing body is a per-batch failure: the
`as_completed` loop stops at the first failed result, having collected only
the results up to it, and returns the failure sentinel; an empty body makes
`_fetch_and_save` fail; and in the card-voice operation a failing batch in
the first scenario of the first card ends the whole invocation with the
asset-not-found outcome, leaving every later card and scenario
unprocessed. -/
theorem c5_first_failure_stop :
    (∀ oks : List Bool, ∀ i : Nat, oks[i]? = some false →
      (∀ j, j < i → oks[j]? = some true) → asCompletedCollect oks = (i + 1, false))
    ∧ (∀ transport : Nat → Option Response, ∀ m : Nat, ∀ r : Response,
        (getModel transport m).outcome = GetOutcome.ok r → r.body = [] →
        fetchAndSave transport m = FSResult.ok false)
    ∧ (∀ c2ds : List Character2dRec, ∀ cards : List CardRec,
        ∀ episodes : List EpisodeRec, ∀ assetOf : String → String → Asset,
        ∀ cid N : Int, ∀ card0 : CardRec, ∀ cs : List CardRec,
        ∀ sid0 : String, ∀ ss : List String,
        1 ≤ N →
        cardsByCharacter cards cid = card0 :: cs →
        scenarioIdsByAssetbundle episodes card0.assetbundleName = sid0 :: ss →
        eligibleVoicesOfAsset (character2dIdsByCharacter c2ds cid) sid0
          (assetOf card0.assetbundleName sid0) ≠ [] →
        downloadCharacterCardsVoices c2ds cards episodes assetOf (fun _ => false)
            cid N =
          CardsRun.mk
            [enumTasks 1 ((eligibleVoicesOfAsset (character2dIdsByCharacter c2ds cid)
              sid0 (assetOf card0.assetbundleName sid0)).take N.toNat)]
            CardsOutcome.notFound) := by
  refine ⟨?_, ?_, ?_⟩
  · intro oks i h1 h2
    exact asCompletedCollect_stops i oks h1 h2
  · intro transport m r hout hbody
    simp only [fetchAndSave, hout, hbody]
    rfl
  · intro c2ds cards episodes assetOf cid N card0 cs sid0 ss h1 hcards hsids hne
    have hscen : scenLoop (character2dIdsByCharacter c2ds cid) assetOf (fun _ => false)
        card0.assetbundleName (sid0 :: ss) N 1 [] =
        ScenStep.stopNotFound [enumTasks 1 ((eligibleVoicesOfAsset
          (character2dIdsByCharacter c2ds cid) sid0
          (assetOf card0.assetbundleName sid0)).take N.toNat)] := by
      simp only [scenLoop]
      rw [if_neg (by omega)]
      rw [parseAndDownloadAsset_allFail (character2dIdsByCharacter c2ds cid)
        (assetOf card0.assetbundleName sid0) sid0 1 N h1 hne]
      rfl
    have hloop : cardsLoop (character2dIdsByCharacter c2ds cid) assetOf
        (fun _ => false) episodes (card0 :: cs) N 1 [] =
        CardsRun.mk [enumTasks 1 ((eligibleVoicesOfAsset
          (character2dIdsByCharacter c2ds cid) sid0
          (assetOf card0.assetbundleName sid0)).take N.toNat)]
          CardsOutcome.notFound := by
      simp only [cardsLoop]
      rw [if_neg (by omega), hsids, hscen]
    simp only [downloadCharacterCardsVoices]
    rw [hcards]
    exact hloop

/-- Witness for C5: a completion order with the failure in second position, a
200 response with an empty body, and a one-card dataset whose downloads all
fail. -/
theorem c5_first_failure_stop_witness :
    asCompletedCollect [true, false, true] = (2, false)
    ∧ fetchAndSave (fun _ => some (Response.mk 200 [] Json.null)) 5 = FSResult.ok false
    ∧ downloadCharacterCardsVoices [Character2dRec.mk 10 1] [CardRec.mk 1 ("b")]
        [EpisodeRec.mk ("b") ("s")]
        (fun _ _ => Asset.mk [TalkEntry.mk [TalkCharacter.mk 10] [Voice.mk 10 ("v1")] []])
        (fun _ => false) 1 5 =
      CardsRun.mk
        [enumTasks 1 ((eligibleVoicesOfAsset
          (character2dIdsByCharacter [Character2dRec.mk 10 1] 1) ("s")
          ((fun _ _ => Asset.mk [TalkEntry.mk [TalkCharacter.mk 10]
            [Voice.mk 10 ("v1")] []]) (CardRec.mk 1 ("b")).assetbundleName
            ("s"))).take (5 : Int).toNat)]
        CardsOutcome.notFound :=
  ⟨c5_first_failure_stop.1 [true, false, true] 1 (by decide)
      (fun j hj => by interval_cases j; rfl),
   c5_first_failure_stop.2.1 (fun _ => some (Response.mk 200 [] Json.null)) 5
      (Response.mk 200 [] Json.null) rfl rfl,
   c5_first_failure_stop.2.2 [Character2dRec.mk 10 1] [CardRec.mk 1 ("b")]
      [EpisodeRec.mk ("b") ("s")]
      (fun _ _ => Asset.mk [TalkEntry.mk [TalkCharacter.mk 10] [Voice.mk 10 ("v1")] []])
      1 5 (CardRec.mk 1 ("b")) [] ("s") []
      (by decide) rfl rfl (by decide)⟩

/-- C6 counterexample: with an always-failing transport, `_get` raises the
fatal connection failure, yet `_fetch_and_save` returns the non-fatal
per-task failure `False` instead of letting the failure propagate — its
`except Exception` clause catches `httpx.ConnectError`. -/
theorem c6_counterexample :
    (getModel (fun _ => none) 5).outcome = GetOutcome.connectError
    ∧ fetchAndSave (fun _ => none) 5 = FSResult.ok false
    ∧ fetchAndSave (fun _ => none) 5 ≠ FSResult.raised := by
  refine ⟨rfl, rfl, ?_⟩
  intro h
  exact FSResult.noConfusion h

/-- C6 (amended): a download task whose fetch exhausts the retry budget does
NOT propagate the fatal connection failure: `_fetch_and_save` catches every
exception and reports the task as a non-fatal per-task failure (`False`),
which stops the current batch but not the run. -/
theorem c6_fatal_caught (transport : Nat → Option Response) (m : Nat)
    (h : (getModel transport m).outcome = GetOutcome.connectError) :
    fetchAndSave transport m = FSResult.ok false := by
  simp only [fetchAndSave, h]

/-- Witness for C6 at the always-failing transport with the default retry
budget of 5. -/
theorem c6_fatal_caught_witness :
    (getModel (fun _ => none) 5).outcome = GetOutcome.connectError
    ∧ fetchAndSave (fun _ => none) 5 = FSResult.ok false :=
  ⟨rfl, c6_fatal_caught (fun _ => none) 5 rfl⟩

/-- C7: evaluation at the failing input.  With a stale cache file on disk
(mtime one second past the TTL) holding payload `"d"`, the TTL-filtered
`_load_cache` already returns `None`, so on fetch failure the fallback
`cache_hit if cache_hit is not None else {}` can only produce the empty
default: with `max_retries = 0` (the only way `_get` returns `None`) the
loader returns `{}` rather than the stale `"d"`, and with a positive retry
budget the `httpx.ConnectError` propagates out of `fetch` instead of any
fallback happening.  The stale value is never served, contradicting the
claimed stale-cache fallback. -/
theorem c7_stale_fallback_dead :
    loadCacheFile (some (Json.str ("d"), 0)) (cacheTtlSeconds + 1) = none
    ∧ fetchDataset (some (Json.str ("d"), 0)) (cacheTtlSeconds + 1)
        (fun _ => none) 0 = DataFetchResult.ok (Json.obj [])
    ∧ fetchDataset (some (Json.str ("d"), 0)) (cacheTtlSeconds + 1)
        (fun _ => none) 0 ≠ DataFetchResult.ok (Json.str ("d"))
    ∧ fetchDataset (some (Json.str ("d"), 0)) (cacheTtlSeconds + 1)
        (fun _ => none) 5 = DataFetchResult.raised := by
  refine ⟨rfl, rfl, ?_, rfl⟩
  intro h
  injection h with h2
  exact Json.noConfusion h2

/-- C8: saving a payload and loading it before TTL expiry (comparing file
modification time with the 30-day TTL) returns the original payload; loading
after TTL expiry returns absent regardless of the prior save; loading when no
cache file exists returns absent. -/
theorem c8_cache_roundtrip (dir : CacheDir) (key : String) (payload : Json)
    (tSave tLoad : Nat) :
    (tSave ≤ tLoad → tLoad - tSave ≤ cacheTtlSeconds →
      loadCache (saveCache dir key payload tSave) key tLoad = some payload)
    ∧ (tLoad - tSave > cacheTtlSeconds →
      loadCache (saveCache dir key payload tSave) key tLoad = none)
    ∧ loadCache (fun _ => none) key tLoad = none := by
  refine ⟨?_, ?_, rfl⟩
  · intro h1 h2
    show loadCacheFile (if key = key then some (payload, tSave) else dir key) tLoad =
      some payload
    rw [if_pos rfl]
    show (if tLoad - tSave > cacheTtlSeconds then none else some payload) = some payload
    rw [if_neg (by omega)]
  · intro h1
    show loadCacheFile (if key = key then some (payload, tSave) else dir key) tLoad = none
    rw [if_pos rfl]
    show (if tLoad - tSave > cacheTtlSeconds then none else some payload) = none
    rw [if_pos (by omega)]

/-- Witness for C8: save at time 100, load at time 200 (fresh) and at
TTL + 101 seconds (stale). -/
theorem c8_cache_roundtrip_witness :
    loadCache (saveCache (fun _ => none) ("musics") (Json.num 7) 100) ("musics") 200 =
      some (Json.num 7)
    ∧ loadCache (saveCache (fun _ => none) ("musics") (Json.num 7) 100) ("musics")
        (cacheTtlSeconds + 101) = none := by
  constructor
  · exact (c8_cache_roundtrip (fun _ => none) ("musics") (Json.num 7) 100 200).1
      (by omega) (by simp [cacheTtlSeconds])
  · exact (c8_cache_roundtrip (fun _ => none) ("musics") (Json.num 7) 100
      (cacheTtlSeconds + 101)).2.1 (by omega)

/-- C9 counterexample: the manifest line is built by sequential string
replacement on the template `{path}|{text}`, so a destination path that
contains the literal `{text}` is corrupted: for path `{text}` and transcript
`X` the appended line is `X|X`, not `{text}|X`. -/
theorem c9_counterexample :
    writeManifestLine true (ManifestState.mk false []) (("\x7btext\x7d").data)
        (("X").data) =
      ManifestState.mk true [("X|X\n").data]
    ∧ ("X|X\n").data ≠
        (("\x7btext\x7d").data) ++ '|' :: ((("X").data) ++ ['\n']) := by
  constructor
  · rfl
  · decide

/-- C9 (amended): for every successfully downloaded voice task carrying a
transcript, provided the destination path does not contain the literal
substring `{text}`, exactly one manifest line is appended, equal to the
destination path, a literal `|`, the transcript text and a newline; a failed
download appends no manifest line and leaves the writer untouched. -/
theorem c9_manifest_line (transport : Nat → Option Response) (m : Nat)
    (st : ManifestState) (path text : List Char)
    (hp : ¬ ((("\x7btext\x7d").data) <:+: path)) :
    (fetchAndSave transport m = FSResult.ok true →
      (downloadVoiceWithManifest transport m true st path text).2.lines =
        st.lines ++ [path ++ '|' :: (text ++ ['\n'])]
      ∧ (downloadVoiceWithManifest transport m true st path text).1 =
          FSResult.ok true)
    ∧ (fetchAndSave transport m = FSResult.ok false →
      (downloadVoiceWithManifest transport m true st path text).2 = st
      ∧ (downloadVoiceWithManifest transport m true st path text).1 =
          FSResult.ok false) := by
  constructor
  · intro hok
    simp only [downloadVoiceWithManifest, hok]
    refine ⟨?_, by trivial⟩
    simp only [writeManifestLine, if_neg (by decide : ¬ (true = false))]
    have hserial := serializeManifestFormat_safe path text hp
    by_cases hop : st.opened = false
    · rw [if_pos hop]
      simp [hserial]
    · rw [if_neg hop]
      simp [hserial]
  · intro hfail
    simp only [downloadVoiceWithManifest, hfail]
    exact ⟨by trivial, by trivial⟩

/-- Witness for C9 at the claim's example: destination `/out/1/P001.wav`,
transcript `Hello world`, a succeeding download. -/
theorem c9_manifest_line_witness :
    ¬ ((("\x7btext\x7d").data) <:+: (("/out/1/P001.wav").data))
    ∧ fetchAndSave (fun _ => some (Response.mk 200 [7] Json.null)) 5 =
        FSResult.ok true
    ∧ (downloadVoiceWithManifest (fun _ => some (Response.mk 200 [7] Json.null)) 5
        true (ManifestState.mk false []) (("/out/1/P001.wav").data)
        (("Hello world").data)).2.lines =
      [] ++ [(("/out/1/P001.wav").data) ++ '|' :: ((("Hello world").data) ++ ['\n'])] :=
  ⟨by rw [← containsSub_eq_true_iff]; decide, rfl,
   ((c9_manifest_line (fun _ => some (Response.mk 200 [7] Json.null)) 5
      (ManifestState.mk false []) (("/out/1/P001.wav").data) (("Hello world").data)
      (by rw [← containsSub_eq_true_iff]; decide)).1 rfl).1⟩

/-- C10: when the save-transcripts flag is false the manifest writer is a
no-op — no file is opened and no line written — and the download outcome is
exactly the `_fetch_and_save` result with the writer state untouched; the
outcome never depends on the flag; with the flag true, a failed download
still leaves the writer untouched (the file is opened lazily only when the
first line is written), and a write opens the file and appends exactly one
line. -/
theorem c10_manifest_flag (transport : Nat → Option Response) (m : Nat)
    (st : ManifestState) (path text : List Char) :
    writeManifestLine false st path text = st
    ∧ downloadVoiceWithManifest transport m false st path text =
        (fetchAndSave transport m, st)
    ∧ (∀ b : Bool,
        (downloadVoiceWithManifest transport m b st path text).1 =
          fetchAndSave transport m)
    ∧ (fetchAndSave transport m = FSResult.ok false →
        (downloadVoiceWithManifest transport m true st path text).2 = st)
    ∧ (writeManifestLine true st path text).opened = true
    ∧ (writeManifestLine true st path text).lines =
        st.lines ++ [serializeManifestFormat path text ++ ['\n']] := by
  have hwn : writeManifestLine false st path text = st := by
    simp [writeManifestLine]
  refine ⟨hwn, ?_, ?_, ?_, ?_, ?_⟩
  · cases h : fetchAndSave transport m with
    | ok b =>
      cases b with
      | true => simp only [downloadVoiceWithManifest, h, hwn]
      | false => simp only [downloadVoiceWithManifest, h]
    | raised => simp only [downloadVoiceWithManifest, h]
  · intro b
    cases h : fetchAndSave transport m with
    | ok s =>
      cases s with
      | true => simp only [downloadVoiceWithManifest, h]
      | false => simp only [downloadVoiceWithManifest, h]
    | raised => simp only [downloadVoiceWithManifest, h]
  · intro hfail
    simp only [downloadVoiceWithManifest, hfail]
  · simp only [writeManifestLine, if_neg (by decide : ¬ (true = false))]
    by_cases hop : st.opened = false
    · rw [if_pos hop]
    · rw [if_neg hop]
      simp only [Bool.not_eq_false] at hop
      exact hop
  · simp only [writeManifestLine, if_neg (by decide : ¬ (true = false))]
    by_cases hop : st.opened = false
    · rw [if_pos hop]
    · rw [if_neg hop]

/-- Witness for C10: flag false is a no-op; with flag true a failed download
leaves the manifest closed and empty. -/
theorem c10_manifest_flag_witness :
    writeManifestLine false (ManifestState.mk false []) (("p").data) (("t").data) =
      ManifestState.mk false []
    ∧ fetchAndSave (fun _ => none) 5 = FSResult.ok false
    ∧ (downloadVoiceWithManifest (fun _ => none) 5 true (ManifestState.mk false [])
        (("p").data) (("t").data)).2 = ManifestState.mk false [] :=
  ⟨(c10_manifest_flag (fun _ => none) 5 (ManifestState.mk false []) (("p").data)
      (("t").data)).1,
   rfl,
   (c10_manifest_flag (fun _ => none) 5 (ManifestState.mk false []) (("p").data)
      (("t").data)).2.2.2.1 rfl⟩

end FindUrVoices
